import Mathlib

/-!
 # Verification of the nanobot background-task subsystem

Shallow embedding of the long-running task subsystem of the `nanobot`
repository:

* `src/nanobot/agent/background.py` — `TaskRecord`, `TaskRegistry`
  (`create`, `update_activity`, `finish`, `drain_stale`),
  `_event_to_activity`, and `run_background_task`;
* `src/nanobot/providers/claude_cli_provider.py` —
  `ClaudeCliProvider.run_task_streaming`.

Python values flowing through these functions are JSON-shaped (they come
from `json.loads`), so they are modelled by an inductive `Json` type with
Python truthiness, Python `str()` rendering and Python `dict` operations.
Operations that can raise (`AttributeError` / `TypeError` on values of an
unexpected shape) are modelled with `Except String`, the `String` carrying
the Python exception text.
-/

namespace Nanobot

/-- JSON-shaped Python value, as produced by `json.loads`.  Objects are
insertion-ordered association lists (Python `dict`s preserve insertion
order); numbers are modelled as integers, which covers every numeric value
the claims touch. -/
inductive Json where
  | null
  | bool (b : Bool)
  | num (n : Int)
  | str (s : String)
  | arr (xs : List Json)
  | obj (kvs : List (String × Json))
deriving Repr

/-- Python type name of a value, as it appears in exception messages. -/
def Json.pyTypeName : Json → String
  | .null => "NoneType"
  | .bool _ => "bool"
  | .num _ => "int"
  | .str _ => "str"
  | .arr _ => "list"
  | .obj _ => "dict"

/-- Python truthiness (`bool(v)`). -/
def Json.truthy : Json → Bool
  | .null => false
  | .bool b => b
  | .num n => n != 0
  | .str s => s ≠ ""
  | .arr xs => !xs.isEmpty
  | .obj kvs => !kvs.isEmpty

/-- `d.get(k)` on a Python dict: the value bound to `k`, if any.
Association lists model parsed dicts, whose keys are distinct, so the
first binding is the binding. -/
def Json.get (j : Json) (k : String) : Option Json :=
  match j with
  | .obj kvs => (kvs.find? (fun kv => kv.1 = k)).map (fun kv => kv.2)
  | _ => none

/-- `d.get(k)` where a missing key yields Python `None`. -/
def Json.getN (j : Json) (k : String) : Json :=
  (j.get k).getD .null

/-- `v == "lit"` in Python, for an optional value (`None` compares unequal
to every string, as does any non-string value). -/
def optIsStr (o : Option Json) (s : String) : Bool :=
  match o with
  | some (.str t) => t = s
  | _ => false

/-- Python `repr()` of a JSON-shaped value (quote escaping inside nested
strings is not modelled; no claim depends on it). -/
def Json.pyRepr : Json → String
  | .null => "None"
  | .bool b => if b then "True" else "False"
  | .num n => toString n
  | .str s => "'" ++ s ++ "'"
  | .arr xs => "[" ++ String.intercalate ", "
      (xs.attach.map (fun x => x.1.pyRepr)) ++ "]"
  | .obj kvs => "\x7b" ++ String.intercalate ", "
      (kvs.attach.map (fun kv => "'" ++ kv.1.1 ++ "': " ++ kv.1.2.pyRepr)) ++ "\x7d"
decreasing_by
  · have := List.sizeOf_lt_of_mem x.2
    simp only [Json.arr.sizeOf_spec]
    omega
  · have h1 := List.sizeOf_lt_of_mem kv.2
    have h2 : sizeOf kv.1.2 < sizeOf kv.1 := by
      cases kv.1 with
      | mk a b => simp only [Prod.mk.sizeOf_spec]; omega
    simp only [Json.obj.sizeOf_spec]
    omega

/-- Python `str()` of a JSON-shaped value. -/
def Json.pyStr : Json → String
  | .str s => s
  | v => v.pyRepr

/-- Python slicing `s[:n]` (by code points). -/
def pySlice (s : String) (n : Nat) : String := String.mk (s.data.take n)

/-- Python `s.strip()`: leading and trailing whitespace removed. -/
def pyStrip (s : String) : String :=
  String.mk (((s.data.dropWhile Char.isWhitespace).reverse.dropWhile
    Char.isWhitespace).reverse)

/-- Python dict assignment `d[k] = v`: replaces the binding in place if the
key is present, otherwise appends it (insertion order). -/
def setKey (kvs : List (String × Json)) (k : String) (v : Json) :
    List (String × Json) :=
  match kvs with
  | [] => [(k, v)]
  | kv :: rest => if kv.1 = k then (k, v) :: rest else kv :: setKey rest k v

/-- `v.get(k)` as an attribute access: raises `AttributeError` (modelled as
`Except.error` with the Python exception text) when `v` is not a dict. -/
def pyGetAttr (j : Json) (k : String) : Except String (Option Json) :=
  match j with
  | .obj _ => .ok (j.get k)
  | _ => .error ("'" ++ j.pyTypeName ++ "' object has no attribute 'get'")

/-- `x or y` in Python: `x` if truthy, else `y`. -/
def pyOr (x y : Json) : Json := if x.truthy then x else y

/-!
 ## `_event_to_activity` (src/nanobot/agent/background.py, lines 91-107)

```python
def _event_to_activity(event: dict) -> str | None:
    if event.get("type") != "assistant":
        return None
    for block in (event.get("message") or {}).get("content") or []:
        if not isinstance(block, dict):
            continue
        if block.get("type") == "tool_use":
            name = block.get("name", "tool")
            inp = block.get("input") or {}
            val = next((str(v)[:300] for v in inp.values() if v), "")
            return f'{name}("{val}")' if val else name
        if block.get("type") == "text":
            text = (block.get("text") or "").strip()
            if text:
                return text[:500] + ("…" if len(text) > 500 else "")
    return None
```

The returned label is a `Json` value because the tool-use branch can return
the raw `name` value (`return ... else name`), which need not be a string.
-/

/-- `for ... in v`: the list of items Python iteration yields, or a
`TypeError` when `v` is not iterable.  Iterating a string yields its
characters as one-character strings; iterating a dict yields its keys. -/
def pyIter (j : Json) : Except String (List Json) :=
  match j with
  | .arr xs => .ok xs
  | .str s => .ok (s.toList.map (fun c => .str (String.singleton c)))
  | .obj kvs => .ok (kvs.map (fun kv => .str kv.1))
  | _ => .error ("'" ++ j.pyTypeName ++ "' object is not iterable")

/-- One pass of the `for block in ...` loop body of `_event_to_activity`. -/
def activityBlocks : List Json → Except String (Option Json)
  | [] => .ok none
  | block :: rest =>
    match block with
    | .obj kvs =>
      if optIsStr (Json.get (.obj kvs) "type") "tool_use" then
        -- block.get("name", "tool"): default applies only when the key is absent
        let name := match Json.get (.obj kvs) "name" with
          | some v => v
          | none => .str "tool"
        let inp := pyOr (Json.getN (.obj kvs) "input") (.obj [])
        match inp with
        | .obj ikvs =>
          let val := (((ikvs.map (fun kv => kv.2)).find? Json.truthy).map
            (fun v => pySlice v.pyStr 300)).getD ""
          .ok (some (if val ≠ "" then
            .str (name.pyStr ++ "(\"" ++ val ++ "\")") else name))
        | _ => .error ("'" ++ inp.pyTypeName ++ "' object has no attribute 'values'")
      else if optIsStr (Json.get (.obj kvs) "type") "text" then
        let t := pyOr (Json.getN (.obj kvs) "text") (.str "")
        match t with
        | .str s =>
          let s := pyStrip s
          if s ≠ "" then
            .ok (some (.str (pySlice s 500 ++ (if 500 < s.length then "…" else ""))))
          else
            activityBlocks rest
        | _ => .error ("'" ++ t.pyTypeName ++ "' object has no attribute 'strip'")
      else
        activityBlocks rest
    | _ => activityBlocks rest

/-- `_event_to_activity(event)`.  `Except.error` models the exceptions the
Python function can raise on values of an unexpected shape. -/
def eventToActivity (event : Json) : Except String (Option Json) :=
  match pyGetAttr event "type" with
  | .error m => .error m
  | .ok ty =>
    if optIsStr ty "assistant" then
      let msg := pyOr (event.getN "message") (.obj [])
      match pyGetAttr msg "content" with
      | .error m => .error m
      | .ok content =>
        match pyIter (pyOr (content.getD .null) (.arr [])) with
        | .error m => .error m
        | .ok blocks => activityBlocks blocks
    else
      .ok none

/-!
 ## Task Store (`TaskRegistry`, src/nanobot/agent/background.py, lines 22-88)

The task directory is modelled as an association list from file name to
file content.  A file whose text does not parse as JSON (or cannot be
read) is `FileContent.corrupt`; otherwise it holds the parsed `Json`
value.  `json.dumps`/`json.loads` round-trip a parsed dict to the same
dict, so rewriting a file stores the modified `Json` value directly.
-/

/-- Content of one on-disk file: unreadable/unparseable, or parsed JSON. -/
inductive FileContent where
  | corrupt
  | json (j : Json)

/-- The task directory: file name to file content, one entry per file. -/
abbrev Store := List (String × FileContent)

/-- File name used for a task id (`f"{task_id}.json"`). -/
def fname (id : String) : String := id ++ ".json"

/-- Look up a file by name. -/
def lookupFile (store : Store) (name : String) : Option FileContent :=
  ((store.find? (fun f => f.1 = name)).map (fun f => f.2))

/-- Write a file (create or overwrite). -/
def setFile (store : Store) (name : String) (c : FileContent) : Store :=
  match store with
  | [] => [(name, c)]
  | f :: rest => if f.1 = name then (name, c) :: rest else f :: setFile rest name c

/-- `TaskRecord` (dataclass).  Field values coming back from
`TaskRecord(**data)` are arbitrary JSON values (the dataclass performs no
type validation), so every field is `Json`. -/
structure TaskRecord where
  id : Json
  channel : Json
  chat_id : Json
  prompt_preview : Json
  started_at : Json
  status : Json
  last_activity : Json

/-- The dataclass field names, in declaration order (`asdict` order). -/
def recordFields : List String :=
  ["id", "channel", "chat_id", "prompt_preview", "started_at", "status",
   "last_activity"]

/-- `TaskRecord(**data)`: succeeds when every key of `data` is a known
field and the fields without defaults are all present; `status` defaults
to `"running"` and `last_activity` to `""`.  `none` models the
`TypeError` Python raises otherwise. -/
def recordOf (kvs : List (String × Json)) : Option TaskRecord :=
  if kvs.all (fun kv => kv.1 ∈ recordFields) then
    match Json.get (.obj kvs) "id", Json.get (.obj kvs) "channel",
        Json.get (.obj kvs) "chat_id", Json.get (.obj kvs) "prompt_preview",
        Json.get (.obj kvs) "started_at" with
    | some i, some ch, some cid, some pp, some st =>
      some { id := i, channel := ch, chat_id := cid, prompt_preview := pp,
             started_at := st,
             status := (Json.get (.obj kvs) "status").getD (.str "running"),
             last_activity := (Json.get (.obj kvs) "last_activity").getD (.str "") }
    | _, _, _, _, _ => none
  else
    none

/-- `asdict(record)` for a freshly created record
(`TaskRegistry.create`): `prompt_preview = prompt[:100]`, initial status
`"running"`, empty `last_activity`. -/
def newRecordJson (id channel chat_id prompt : String) (started_at : Int) :
    List (String × Json) :=
  [("id", .str id), ("channel", .str channel), ("chat_id", .str chat_id),
   ("prompt_preview", .str (pySlice prompt 100)), ("started_at", .num started_at),
   ("status", .str "running"), ("last_activity", .str "")]

namespace TaskRegistry

/-- `TaskRegistry.create`: writes the initial `running` record.  The
generated uuid prefix and `time.time()` reading are environment inputs,
passed as `id` and `started_at`. -/
def create (store : Store) (id channel chat_id prompt : String)
    (started_at : Int) : Store :=
  setFile store (fname id) (.json (.obj (newRecordJson id channel chat_id
    prompt started_at)))

/-- `TaskRegistry.update_activity`: best-effort rewrite of
`last_activity`; missing, unparseable or non-dict files are left alone
(the `except Exception: pass`). -/
def update_activity (store : Store) (task_id : String) (activity : Json) :
    Store :=
  match lookupFile store (fname task_id) with
  | some (.json (.obj kvs)) =>
    setFile store (fname task_id) (.json (.obj (setKey kvs "last_activity" activity)))
  | _ => store

/-- `TaskRegistry.finish`: best-effort rewrite of `status`; missing,
unparseable or non-dict files are left alone. -/
def finish (store : Store) (task_id : String) (status : String) : Store :=
  match lookupFile store (fname task_id) with
  | some (.json (.obj kvs)) =>
    setFile store (fname task_id) (.json (.obj (setKey kvs "status" (.str status))))
  | _ => store

/-- The per-file test of `drain_stale`: does this file hold a dict whose
`"status"` is `"running"` and which `TaskRecord(**data)` accepts?
(`stale.append(TaskRecord(**data))` runs before the rewrite, so a
`TypeError` there skips the file entirely.) -/
def runningRecord : FileContent → Option TaskRecord
  | .json (.obj kvs) =>
    if optIsStr (Json.get (.obj kvs) "status") "running" then recordOf kvs
    else none
  | _ => none

/-- Rewrite applied by `drain_stale` to a single file. -/
def drainFile (c : FileContent) : FileContent :=
  match c with
  | .json (.obj kvs) =>
    if optIsStr (Json.get (.obj kvs) "status") "running" ∧
        (recordOf kvs).isSome then
      .json (.obj (setKey kvs "status" (.str "stale")))
    else c
  | _ => c

/-- File names visited by `drain_stale`: `sorted(self.task_dir.glob("*.json"))`
— the `*.json` files, in lexical name order. -/
def sortedJsonFiles (store : Store) : Store :=
  (store.filter (fun f => String.endsWith f.1 ".json")).mergeSort
    (fun a b => a.1 ≤ b.1)

/-- `TaskRegistry.drain_stale`: returns every parseable record still
marked `running` (lexical file-name order) and rewrites each of those
files to status `stale`.  Files that fail to read/parse, or whose dict
`TaskRecord(**data)` rejects, are skipped untouched. -/
def drain_stale (store : Store) : List TaskRecord × Store :=
  ((sortedJsonFiles store).filterMap (fun f => runningRecord f.2),
   store.map (fun f =>
     if String.endsWith f.1 ".json" then (f.1, drainFile f.2) else f))

end TaskRegistry

/-!
 ## Orchestrator (`run_background_task`, src/nanobot/agent/background.py,
lines 110-176)

The event stream handed to the orchestrator is modelled as a list of
`StreamItem`s: an event arriving at a given `time.monotonic()` reading, an
exception raised by the stream, or a cancellation delivered at the
suspension point between events.  The orchestrator's observable behaviour
is the ordered list of posted message contents, the ordered list of Task
Store calls it makes for its task id, and whether it returned normally or
re-raised the cancellation.
-/

/-- One step of the `async for` loop's environment. -/
inductive StreamItem where
  | ev (t : Nat) (e : Json)
  | raiseErr (msg : String)
  | cancel

/-- A Task Store call made by the orchestrator. -/
inductive RegOp where
  | updAct (v : Json)
  | fin (status : String)

def RegOp.isFin : RegOp → Bool
  | .fin _ => true
  | _ => false

/-- How `run_background_task` ended: a normal return, or re-raising
`asyncio.CancelledError`. -/
inductive Outcome where
  | returned
  | cancelRaised
deriving DecidableEq

structure RunOut where
  posts : List String
  regOps : List RegOp
  outcome : Outcome

/-- Mutable loop state of `run_background_task`. -/
structure OrchState where
  lastStatusAt : Nat
  lastActivity : Json
  resultText : Option Json
  isError : Bool
  posts : List String
  regOps : List RegOp

/-- `_STATUS_INTERVAL_S = 60`. -/
def STATUS_INTERVAL_S : Nat := 60

/-- The periodic status message
(`f"⏳ Still working… ({elapsed_str} elapsed)\n`{last_activity}`"`). -/
def statusMsg (elapsed_s : Nat) (lastActivity : Json) : String :=
  let mins := elapsed_s / 60
  let secs := elapsed_s % 60
  let elapsedStr := if mins ≠ 0 then
    toString mins ++ "m " ++ toString secs ++ "s"
  else
    toString secs ++ "s"
  "⏳ Still working… (" ++ elapsedStr ++ " elapsed)\n`" ++
    lastActivity.pyStr ++ "`"

/-- Lines 141-144: `if activity: last_activity = activity;
registry.update_activity(task_id, activity)`. -/
def actStep (st : OrchState) (activity : Option Json) : OrchState :=
  match activity with
  | some v =>
    if v.truthy then
      { st with lastActivity := v, regOps := st.regOps ++ [.updAct v] }
    else st
  | none => st

/-- Lines 146-151: capture of the result text and error flag. -/
def resStep (st : OrchState) (e : Json) : OrchState :=
  if optIsStr (e.get "type") "result" then
    { st with
      resultText := some (pyOr (e.getN "result") (.str "")),
      isError := (e.getN "is_error").truthy ||
        optIsStr (e.get "subtype") "error_during_execution" }
  else st

/-- Lines 153-158: the periodic status post. -/
def tickStep (started : Nat) (st : OrchState) (now : Nat) : OrchState :=
  if STATUS_INTERVAL_S ≤ now - st.lastStatusAt then
    { st with
      posts := st.posts ++ [statusMsg (now - started) st.lastActivity],
      lastStatusAt := now }
  else st

/-- The loop body of `run_background_task` for one received event, given
the `time.monotonic()` reading `now`.  `Except.error` is an exception
escaping the body (raised by `_event_to_activity`). -/
def orchStep (started : Nat) (st : OrchState) (now : Nat) (e : Json) :
    Except String OrchState :=
  match eventToActivity e with
  | .error m => .error m
  | .ok activity => .ok (tickStep started (resStep (actStep st activity) e) now)

/-- Processing of the remaining stream items, from loop state `st`. -/
def orchRun (started : Nat) (st : OrchState) : List StreamItem → RunOut
  | [] =>
    -- normal stream exhaustion (lines 170-176)
    let finStatus := if st.isError then "error" else "done"
    let finalMsg :=
      match st.resultText with
      | some r =>
        if r.truthy then
          (if st.isError then "❌ " else "") ++ r.pyStr
        else "✓ Task completed."
      | none => "✓ Task completed."
    { posts := st.posts ++ [finalMsg],
      regOps := st.regOps ++ [.fin finStatus],
      outcome := .returned }
  | .ev t e :: rest =>
    match orchStep started st t e with
    | .ok st => orchRun started st rest
    | .error m =>
      -- except Exception (lines 164-168)
      { posts := st.posts ++ ["❌ Task failed: " ++ m],
        regOps := st.regOps ++ [.fin "error"],
        outcome := .returned }
  | .raiseErr m :: _ =>
    { posts := st.posts ++ ["❌ Task failed: " ++ m],
      regOps := st.regOps ++ [.fin "error"],
      outcome := .returned }
  | .cancel :: _ =>
    -- except asyncio.CancelledError (lines 160-163): finish, post, re-raise
    { posts := st.posts ++ ["⏹ Task cancelled."],
      regOps := st.regOps ++ [.fin "cancelled"],
      outcome := .cancelRaised }

/-- Initial loop state of `run_background_task` (lines 123-127):
`last_activity = "starting…"`, `last_status_at = started`. -/
def initOrchState (started : Nat) : OrchState :=
  { lastStatusAt := started, lastActivity := .str "starting…",
    resultText := none, isError := false, posts := [], regOps := [] }

/-- `run_background_task`. -/
def run_background_task (started : Nat) (items : List StreamItem) : RunOut :=
  orchRun started (initOrchState started) items

/-- Replay the orchestrator's Task Store calls against a store
(`registry.update_activity(task_id, ...)` / `registry.finish(task_id, ...)`). -/
def applyRegOps (task_id : String) (store : Store) : List RegOp → Store
  | [] => store
  | .updAct v :: rest =>
    applyRegOps task_id (TaskRegistry.update_activity store task_id v) rest
  | .fin s :: rest =>
    applyRegOps task_id (TaskRegistry.finish store task_id s) rest

/-!
 ## Streaming Process Client (`ClaudeCliProvider.run_task_streaming`,
src/nanobot/providers/claude_cli_provider.py, lines 104-205)

The subprocess's stdout is modelled as a list of read outcomes: each
`readline()` call completes after `cost` seconds and returns either a line
(classified by what `decoded.strip()` and `json.loads` make of it) or EOF
(`b""`).  `asyncio.wait_for(..., timeout=bound)` completes when
`cost ≤ bound` and raises `asyncio.TimeoutError` (after `bound` seconds)
when `bound < cost`.  An exhausted outcome list stands for a process that
never produces anything again, so the pending read runs out its bound.

Times are in whole seconds starting from stream start (`deadline =
loop.time() + stream_timeout`).  The consumer-visible sequence is
`yielded ++ synthetic.toList`; `raised = true` means an exception
(`AttributeError` on a parsed non-dict line) escaped to the consumer
instead of the stream ending normally.
-/

/-- What one stdout line looks like after `decode().strip()` and
`json.loads`. -/
inductive LineContent where
  | blank                -- strips to the empty string: skipped
  | garbage              -- non-empty but json.loads raises JSONDecodeError
  | parsed (j : Json)    -- non-empty, parses to the JSON value `j`

/-- One `readline()` outcome: completes after `cost` seconds with a line,
or with EOF (`data = none`). -/
structure ReadItem where
  cost : Nat
  data : Option LineContent

/-- Result of the read loop (lines 151-175). -/
structure LoopOut where
  yielded : List Json
  timedOut : Bool
  gotResult : Bool
  raised : Bool
  endTime : Nat

/-- The read loop of `run_task_streaming`. -/
def streamLoop (deadline : Nat) : Nat → List ReadItem → LoopOut
  | now, items =>
    if deadline ≤ now then
      -- remaining <= 0
      { yielded := [], timedOut := true, gotResult := false, raised := false,
        endTime := now }
    else
      let bound := min (deadline - now) 60
      match items with
      | [] =>
        -- nothing ever arrives again: the pending read exhausts its bound
        { yielded := [], timedOut := true, gotResult := false, raised := false,
          endTime := now + bound }
      | item :: rest =>
        if bound < item.cost then
          -- asyncio.TimeoutError from wait_for: timed_out = True; break
          { yielded := [], timedOut := true, gotResult := false,
            raised := false, endTime := now + bound }
        else
          match item.data with
          | none =>
            -- readline returned b"": break (normal stream end)
            { yielded := [], timedOut := false, gotResult := false,
              raised := false, endTime := now + item.cost }
          | some .blank => streamLoop deadline (now + item.cost) rest
          | some .garbage =>
            -- json.JSONDecodeError: pass
            streamLoop deadline (now + item.cost) rest
          | some (.parsed j) =>
            match j with
            | .obj kvs =>
              let out := streamLoop deadline (now + item.cost) rest
              { out with
                yielded := .obj kvs :: out.yielded,
                gotResult := optIsStr (Json.get (.obj kvs) "type") "result"
                  || out.gotResult }
            | _ =>
              -- event.get("type") on a non-dict: AttributeError escapes
              -- (only json.JSONDecodeError is caught)
              { yielded := [], timedOut := false, gotResult := false,
                raised := true, endTime := now + item.cost }

/-- The synthetic timeout event (lines 192-197). -/
def timeoutEvent (stream_timeout : Nat) : Json :=
  .obj [("type", .str "result"),
        ("result", .str ("Error: claude CLI timed out after " ++
          toString stream_timeout ++ "s.")),
        ("is_error", .bool true)]

/-- The synthetic abnormal-exit event (lines 198-205). -/
def exitEvent (returncode : Int) (stderr_lines : List String) : Json :=
  let stderr_text :=
    let t := pyStrip (String.intercalate "\n" stderr_lines)
    if t = "" then "claude exited with code " ++ toString returncode else t
  .obj [("type", .str "result"),
        ("result", .str ("Error: claude CLI exited with code " ++
          toString returncode ++ ": " ++ stderr_text)),
        ("is_error", .bool true)]

/-- What the consumer of `run_task_streaming` observes. -/
structure StreamResult where
  yielded : List Json
  synthetic : Option Json
  raised : Bool
  endTime : Nat

/-- The consumer-visible event sequence. -/
def StreamResult.events (r : StreamResult) : List Json :=
  r.yielded ++ r.synthetic.toList

/-- `run_task_streaming`, from process spawn on: the read loop, then —
when no exception escaped — the synthetic terminal event, if any.
`returncode` is the subprocess's exit code after `kill`/`wait`, and
`stderr_lines` the lines accumulated by the concurrent stderr drain. -/
def run_task_streaming (stream_timeout : Nat) (reads : List ReadItem)
    (returncode : Int) (stderr_lines : List String) : StreamResult :=
  let out := streamLoop stream_timeout 0 reads
  { yielded := out.yielded,
    synthetic :=
      if out.raised then none
      else if out.timedOut then some (timeoutEvent stream_timeout)
      else if returncode ≠ 0 ∧ !out.gotResult then
        some (exitEvent returncode stderr_lines)
      else none,
    raised := out.raised,
    endTime := out.endTime }

/-!
 ## Spec-side definitions

Definitions below formalise the wording of the specification / claims, to
be compared with the source embeddings above.
-/

def Json.isObj : Json → Bool
  | .obj _ => true
  | _ => false

/-- A read outcome whose line, if JSON-parseable, parses to a JSON object
(the shape the subprocess contract promises for events). -/
def lineOk (it : ReadItem) : Bool :=
  match it.data with
  | some (.parsed j) => j.isObj
  | _ => true

/-- Spec-side characterisation (for the amended claim C1) of when the
stream terminates via the timeout path: the overall deadline has expired
at the start of a read, no further output ever arrives, or a single read
reaches the polling bound `min(remaining, 60)` without completing. -/
def timesOutSpec (deadline : Nat) : Nat → List ReadItem → Bool
  | now, items =>
    if deadline ≤ now then true
    else
      let bound := min (deadline - now) 60
      match items with
      | [] => true
      | item :: rest =>
        if bound < item.cost then true
        else match item.data with
          | none => false
          | some _ => timesOutSpec deadline (now + item.cost) rest

/-- An error-flagged result event (`type=result, is_error=true`), the shape
of both synthesized terminal events. -/
def isErrorResultEvent (e : Json) : Bool :=
  optIsStr (e.get "type") "result" && (e.getN "is_error").truthy

/-- The event stream raised nothing while this event was processed by the
orchestrator's loop body. -/
def cleanEv (e : Json) : Bool :=
  match eventToActivity e with
  | .ok _ => true
  | .error _ => false

/-- A `result`-typed event. -/
def isResultEv (e : Json) : Bool := optIsStr (e.get "type") "result"

/-- The last `result`-typed event of a sequence. -/
def lastResult (es : List Json) : Option Json := (es.filter isResultEv).getLast?

/-- The error flag a result event carries (`is_error` truthy, or subtype
`error_during_execution`). -/
def errFlagOf (e : Json) : Bool :=
  (e.getN "is_error").truthy ||
    optIsStr (e.get "subtype") "error_during_execution"

/-- The result text captured from a result event (`event.get("result") or ""`). -/
def capturedOf (e : Json) : Json := pyOr (e.getN "result") (.str "")

/-- The captured result text after a whole event sequence, starting from a
given captured value. -/
def finalResultText (rt : Option Json) (es : List Json) : Option Json :=
  match lastResult es with
  | some e => some (capturedOf e)
  | none => rt

/-- The error flag after a whole event sequence, starting from a given flag. -/
def finalErr (b : Bool) (es : List Json) : Bool :=
  match lastResult es with
  | some e => errFlagOf e
  | none => b

/-- Final Task Store status for an exhausted stream. -/
def finalStatusSpec (es : List Json) : String :=
  if finalErr false es then "error" else "done"

/-- Final outward message for an exhausted stream: the captured result
text, error-prefixed when the error flag is set, or the generic completion
acknowledgment when no (non-empty) result text was captured. -/
def finalMsgSpec (es : List Json) : String :=
  match finalResultText none es with
  | some r =>
    if r.truthy then (if finalErr false es then "❌ " else "") ++ r.pyStr
    else "✓ Task completed."
  | none => "✓ Task completed."

/-- Wrap timed events as stream items. -/
def evItems (evs : List (Nat × Json)) : List StreamItem :=
  evs.map (fun p => .ev p.1 p.2)

/-- The loop state after a run of cleanly-processed events (the `.error`
fallback is never taken when every event satisfies `cleanEv`). -/
def evFold (started : Nat) (st : OrchState) (evs : List (Nat × Json)) :
    OrchState :=
  evs.foldl (fun st p =>
    match orchStep started st p.1 p.2 with
    | .ok st => st
    | .error _ => st) st

/-- Status field visible in the Task Store for a file name. -/
def statusAt (store : Store) (name : String) : Option Json :=
  match lookupFile store name with
  | some (.json (.obj kvs)) => Json.get (.obj kvs) "status"
  | _ => none

/-!
 ### Spec-side definitions for C8 (activity labels)
-/

/-- A content block the `_event_to_activity` loop passes over without
returning and without raising: a non-dict, a dict of a type other than
`tool_use`/`text`, or a `text` dict whose text is absent/falsy or a string
that trims to empty. -/
def skippable (b : Json) : Bool :=
  match b with
  | .obj kvs =>
    if optIsStr (Json.get (.obj kvs) "type") "tool_use" then false
    else if optIsStr (Json.get (.obj kvs) "type") "text" then
      match pyOr (Json.getN (.obj kvs) "text") (.str "") with
      | .str s => pyStrip s = ""
      | _ => false
    else true
  | _ => true

/-- A block the loop stops at and renders without raising: a `tool_use`
dict whose `input` is a dict (or absent/falsy), or a `text` dict whose
text is a nonempty-after-trim string. -/
def usableBlock (b : Json) : Bool :=
  match b with
  | .obj kvs =>
    if optIsStr (Json.get (.obj kvs) "type") "tool_use" then
      (pyOr (Json.getN (.obj kvs) "input") (.obj [])).isObj
    else if optIsStr (Json.get (.obj kvs) "type") "text" then
      match pyOr (Json.getN (.obj kvs) "text") (.str "") with
      | .str s => pyStrip s ≠ ""
      | _ => false
    else false
  | _ => false

/-- The claim's rendering of a usable block: for a tool invocation, the
tool name followed by the first non-empty argument value truncated to 300
characters in quotes (or the bare tool name when no usable argument value
exists); for a plain text step, the text trimmed and truncated to 500
characters with an ellipsis marker if cut. -/
def renderBlockSpec (b : Json) : Option Json :=
  match b with
  | .obj kvs =>
    if optIsStr (Json.get (.obj kvs) "type") "tool_use" then
      let name := match Json.get (.obj kvs) "name" with
        | some v => v
        | none => .str "tool"
      match pyOr (Json.getN (.obj kvs) "input") (.obj []) with
      | .obj ikvs =>
        let val := (((ikvs.map (fun kv => kv.2)).find? Json.truthy).map
          (fun v => pySlice v.pyStr 300)).getD ""
        some (if val ≠ "" then .str (name.pyStr ++ "(\"" ++ val ++ "\")")
              else name)
      | _ => none
    else if optIsStr (Json.get (.obj kvs) "type") "text" then
      match pyOr (Json.getN (.obj kvs) "text") (.str "") with
      | .str s =>
        let s := pyStrip s
        if s ≠ "" then
          some (.str (pySlice s 500 ++ (if 500 < s.length then "…" else "")))
        else none
      | _ => none
    else none
  | _ => none

/-- An assistant-typed event whose message content is the block list
`blocks` (after the `or {}` / `or []` defaults of the source). -/
def assistantShape (e : Json) (blocks : List Json) : Prop :=
  e.isObj = true ∧ optIsStr (e.get "type") "assistant" = true ∧
    (pyOr (e.getN "message") (.obj [])).isObj = true ∧
    pyOr ((pyOr (e.getN "message") (.obj [])).getN "content") (.arr []) =
      .arr blocks

/-!
 ### Spec-side definitions for C9 (status transitions)
-/

/-- Task Store operations as issued by the Orchestrator and by recovery. -/
inductive Op where
  | create (id channel chat_id prompt : String) (started_at : Int)
  | updateActivity (id : String) (v : Json)
  | finish (id : String) (status : String)
  | drain

/-- Apply one operation to the on-disk state. -/
def applyOp (store : Store) : Op → Store
  | .create id channel chat_id prompt started_at =>
    TaskRegistry.create store id channel chat_id prompt started_at
  | .updateActivity id v => TaskRegistry.update_activity store id v
  | .finish id s => TaskRegistry.finish store id s
  | .drain => (TaskRegistry.drain_stale store).2

def applyOps (store : Store) (ops : List Op) : Store :=
  ops.foldl applyOp store

/-- Reachable operation sequences, as used by the Orchestrator and by
recovery: recovery (`drain`) runs only at startup (before any create of
this run); `create` allocates a fresh id (a new uuid); `finish` is called
exactly once per task, on a task created in this run, with a terminal
status.  `names` accumulates the known file names, `active` the created
but not yet finished task ids, `createSeen` whether a create has
happened. -/
def okOps (names active : List String) (createSeen : Bool) : List Op → Bool
  | [] => true
  | op :: rest =>
    match op with
    | .drain => !createSeen && okOps names active createSeen rest
    | .create id _ _ _ _ =>
      !(names.contains (fname id)) &&
        okOps (fname id :: names) (id :: active) true rest
    | .updateActivity _ _ => okOps names active createSeen rest
    | .finish id s =>
      active.contains id &&
        (s = "done" || s = "error" || s = "cancelled") &&
        okOps names (active.erase id) createSeen rest

def Reachable (store : Store) (ops : List Op) : Prop :=
  okOps (store.map (fun f => f.1)) [] false ops = true

/-- The status transitions the claim allows for one operation: every
operation leaves a record's status unchanged, except that `create` brings
a new record into existence as `running`, `finish` moves `running` to the
terminal status it writes, and `drain` (recovery) moves `running` to
`stale`.  In particular nothing ever moves a status away from a terminal
value or away from `stale`. -/
def statusStepFor (op : Op) (a b : Option Json) : Prop :=
  match op with
  | .create _ _ _ _ _ => b = a ∨ (a = none ∧ b = some (.str "running"))
  | .updateActivity _ _ => b = a
  | .finish _ s =>
    b = a ∨ (a = some (.str "running") ∧ b = some (.str s) ∧
      (s = "done" ∨ s = "error" ∨ s = "cancelled"))
  | .drain => b = a ∨ (a = some (.str "running") ∧ b = some (.str "stale"))

/-!
 ### Concrete inputs used by claims C7 and C8
-/

/-- One hundred repeated characters. -/
def xs100 : String := String.mk (List.replicate 100 'x')

/-- A plain-text assistant activity step whose text is 100 repeated
characters. -/
def ev100 : Json :=
  .obj [("type", .str "assistant"),
        ("message", .obj [("content",
          .arr [.obj [("type", .str "text"), ("text", .str xs100)]])])]

/-- The assistant event of the spec's example: tool `bash` invoked with
argument `{"command": "ls /tmp"}`. -/
def bashEv : Json :=
  .obj [("type", .str "assistant"),
        ("message", .obj [("content",
          .arr [.obj [("type", .str "tool_use"), ("name", .str "bash"),
            ("input", .obj [("command", .str "ls /tmp")])]])])]

/-- The spec's example terminal event
`{"type":"result","result":"All done!","is_error":false}`. -/
def resDoneEv : Json :=
  .obj [("type", .str "result"), ("result", .str "All done!"),
        ("is_error", .bool false)]

/-- Every file name of the store is among the known names (C9
invariant). -/
def NamesInv (store : Store) (names : List String) : Prop :=
  ∀ f ∈ store, f.1 ∈ names

/-- Every created-but-unfinished task has an intact record file whose
status is still `running` (C9 invariant). -/
def ActiveInv (store : Store) (active : List String) : Prop :=
  ∀ id ∈ active, ∃ kvs,
    lookupFile store (fname id) = some (.json (.obj kvs)) ∧
    Json.get (.obj kvs) "status" = some (.str "running")

/-- A still-`running` persisted record file. -/
def fileA : String × FileContent :=
  ("a.json", .json (.obj (newRecordJson "a" "discord" "c1" "task1" 0)))

/-- A finished (`done`) persisted record file. -/
def fileB : String × FileContent :=
  ("b.json", .json (.obj (setKey (newRecordJson "b" "discord" "c2" "task2" 1)
    "status" (.str "done"))))

/-!
 ## Theorems

 ### Streaming Process Client (claims C1, C2)
-/

lemma streamLoop_clean (d : Nat) :
    ∀ (reads : List ReadItem) (now : Nat),
    (∀ it ∈ reads, lineOk it = true) →
    (streamLoop d now reads).raised = false ∧
      (streamLoop d now reads).timedOut = timesOutSpec d now reads := by
  intro reads
  induction reads with
  | nil =>
    intro now _
    rw [streamLoop.eq_def, timesOutSpec.eq_def]
    by_cases hd : d ≤ now <;> simp [hd]
  | cons item rest ih =>
    intro now h
    have hitem : lineOk item = true := h item (by simp)
    have hrest : ∀ it ∈ rest, lineOk it = true := fun it hit => h it (by simp [hit])
    rw [streamLoop.eq_def, timesOutSpec.eq_def]
    by_cases hd : d ≤ now
    · simp [hd]
    · by_cases hb : min (d - now) 60 < item.cost
      · simp [hd, hb]
      · match hdata : item.data with
        | none => simp [hd, hb, hdata]
        | some .blank =>
          simpa [hd, hb, hdata] using ih (now + item.cost) hrest
        | some .garbage =>
          simpa [hd, hb, hdata] using ih (now + item.cost) hrest
        | some (.parsed (.obj kvs)) =>
          simpa [hd, hb, hdata] using ih (now + item.cost) hrest
        | some (.parsed .null) => simp [lineOk, hdata, Json.isObj] at hitem
        | some (.parsed (.bool _)) => simp [lineOk, hdata, Json.isObj] at hitem
        | some (.parsed (.num _)) => simp [lineOk, hdata, Json.isObj] at hitem
        | some (.parsed (.str _)) => simp [lineOk, hdata, Json.isObj] at hitem
        | some (.parsed (.arr _)) => simp [lineOk, hdata, Json.isObj] at hitem

lemma streamLoop_yielded_mem (d : Nat) :
    ∀ (reads : List ReadItem) (now : Nat) (e : Json),
    e ∈ (streamLoop d now reads).yielded →
    ∃ it ∈ reads, it.data = some (.parsed e) := by
  intro reads
  induction reads with
  | nil =>
    intro now e he
    rw [streamLoop.eq_def] at he
    by_cases hd : d ≤ now <;> simp [hd] at he
  | cons item rest ih =>
    intro now e he
    rw [streamLoop.eq_def] at he
    by_cases hd : d ≤ now
    · simp [hd] at he
    · by_cases hb : min (d - now) 60 < item.cost
      · simp [hd, hb] at he
      · match hdata : item.data with
        | none => simp [hd, hb, hdata] at he
        | some .blank =>
          simp only [hd, hb, hdata, if_neg, ite_false] at he
          obtain ⟨it, hit, h2⟩ := ih (now + item.cost) e (by simpa using he)
          exact ⟨it, by simp [hit], h2⟩
        | some .garbage =>
          simp only [hd, hb, hdata, if_neg, ite_false] at he
          obtain ⟨it, hit, h2⟩ := ih (now + item.cost) e (by simpa using he)
          exact ⟨it, by simp [hit], h2⟩
        | some (.parsed (.obj kvs)) =>
          simp only [hd, hb, hdata, if_neg, ite_false] at he
          have he : e = .obj kvs ∨ e ∈ (streamLoop d (now + item.cost) rest).yielded := by
            simpa using he
          rcases he with he | he
          · exact ⟨item, by simp, by rw [hdata, he]⟩
          · obtain ⟨it, hit, h2⟩ := ih (now + item.cost) e he
            exact ⟨it, by simp [hit], h2⟩
        | some (.parsed .null) => simp [hd, hb, hdata] at he
        | some (.parsed (.bool _)) => simp [hd, hb, hdata] at he
        | some (.parsed (.num _)) => simp [hd, hb, hdata] at he
        | some (.parsed (.str _)) => simp [hd, hb, hdata] at he
        | some (.parsed (.arr _)) => simp [hd, hb, hdata] at he

lemma timeoutEvent_ne_exitEvent (st : Nat) (rc : Int) (serr : List String) :
    timeoutEvent st ≠ exitEvent rc serr := by
  intro h
  simp only [timeoutEvent, exitEvent, Json.obj.injEq, List.cons.injEq,
    Prod.mk.injEq, Json.str.injEq, true_and, and_true] at h
  have hd := congrArg String.data h
  simp only [String.data_append, List.append_assoc] at hd
  have h18 := congrArg (fun l => l[18]?) hd
  simp only [List.getElem?_append] at h18
  rw [if_pos (by decide), if_pos (by decide)] at h18
  exact absurd h18 (by decide)

/-- C1, claim as stated is false at this input: with `stream_timeout =
900` and a first read that stalls for 61 s (more than the 60 s polling
bound, far less than the deadline), the client terminates the stream as
timed out at `t = 60 < 900` and yields the synthetic timeout event even
though the overall deadline has not expired. -/
theorem C1_counterexample :
    (run_task_streaming 900 [⟨61, none⟩] 0 []).synthetic =
        some (timeoutEvent 900) ∧
      (run_task_streaming 900 [⟨61, none⟩] 0 []).endTime = 60 ∧
      (60 : Nat) < 900 :=
  ⟨rfl, rfl, by decide⟩

/-- C1 (amended): for a stream whose JSON-parseable lines are objects, the
synthetic timeout event is yielded iff the read loop exits via a timeout:
the remaining deadline is ≤ 0 at the start of a read, no further output
ever arrives, or an individual read reaches the polling bound
`min(remaining, 60 s)` without completing — in the last case the client
terminates the stream as timed out even when the overall deadline has not
yet expired (`timesOutSpec`). -/
theorem C1_timeout_iff (stream_timeout : Nat) (reads : List ReadItem)
    (returncode : Int) (stderr_lines : List String)
    (h : ∀ it ∈ reads, lineOk it = true) :
    (run_task_streaming stream_timeout reads returncode stderr_lines).synthetic
        = some (timeoutEvent stream_timeout) ↔
      timesOutSpec stream_timeout 0 reads = true := by
  obtain ⟨hr, ht⟩ := streamLoop_clean stream_timeout reads 0 h
  by_cases hto : timesOutSpec stream_timeout 0 reads = true
  · simp [run_task_streaming, hr, ht, hto]
  · simp only [run_task_streaming, hr, ht, hto, Bool.false_eq_true, if_false,
      iff_false]
    intro hsyn
    split at hsyn
    · exact timeoutEvent_ne_exitEvent stream_timeout returncode stderr_lines
        (Option.some.inj hsyn).symm
    · exact Option.noConfusion hsyn

/-- C1 witness: the amended characterisation applied at the
counterexample's input. -/
theorem C1_witness :
    (∀ it ∈ ([⟨61, none⟩] : List ReadItem), lineOk it = true) ∧
      ((run_task_streaming 900 [⟨61, none⟩] 0 []).synthetic =
          some (timeoutEvent 900) ↔
        timesOutSpec 900 0 [⟨61, none⟩] = true) :=
  ⟨by decide, C1_timeout_iff 900 [⟨61, none⟩] 0 [] (by decide)⟩

/-- C2, claim as stated is false at this input: the line `"[]"` parses as
JSON (so it is not skipped) but is not an object, and the resulting
`AttributeError` from `event.get("type")` escapes to the consumer — the
event sequence does raise. -/
theorem C2_counterexample :
    (run_task_streaming 900 [⟨0, some (.parsed (.arr []))⟩] 0 []).raised
      = true := rfl

/-- C2 (amended): for every read sequence whose JSON-parseable lines parse
to JSON objects, the stream raises nothing to its consumer; every event of
the sequence is either a parsed line of the stream (garbage and blank
lines yield nothing) or a synthesized error-flagged result event
(timeout / non-zero exit without a result event). -/
theorem C2_no_raise (stream_timeout : Nat) (reads : List ReadItem)
    (returncode : Int) (stderr_lines : List String)
    (h : ∀ it ∈ reads, lineOk it = true) :
    (run_task_streaming stream_timeout reads returncode stderr_lines).raised
        = false ∧
      ∀ e ∈ (run_task_streaming stream_timeout reads returncode
          stderr_lines).events,
        (∃ it ∈ reads, it.data = some (.parsed e)) ∨
          isErrorResultEvent e = true := by
  obtain ⟨hr, -⟩ := streamLoop_clean stream_timeout reads 0 h
  refine ⟨hr, ?_⟩
  intro e he
  rw [StreamResult.events, List.mem_append] at he
  rcases he with he | he
  · exact .inl (streamLoop_yielded_mem stream_timeout reads 0 e he)
  · right
    simp only [run_task_streaming] at he
    split at he
    · simp at he
    · split at he
      · simp only [Option.toList_some, List.mem_singleton] at he
        subst he
        rfl
      · split at he
        · simp only [Option.toList_some, List.mem_singleton] at he
          subst he
          rfl
        · simp at he

/-- C2 witness: the amended theorem applied to a stream with one garbage
line, one result line and EOF. -/
theorem C2_witness :
    (∀ it ∈ ([⟨0, some .garbage⟩,
        ⟨0, some (.parsed (.obj [("type", .str "result")]))⟩, ⟨0, none⟩] :
        List ReadItem), lineOk it = true) ∧
      ((run_task_streaming 60 [⟨0, some .garbage⟩,
          ⟨0, some (.parsed (.obj [("type", .str "result")]))⟩, ⟨0, none⟩]
          0 []).raised = false ∧
        ∀ e ∈ (run_task_streaming 60 [⟨0, some .garbage⟩,
            ⟨0, some (.parsed (.obj [("type", .str "result")]))⟩, ⟨0, none⟩]
            0 []).events,
          (∃ it ∈ ([⟨0, some .garbage⟩,
              ⟨0, some (.parsed (.obj [("type", .str "result")]))⟩,
              ⟨0, none⟩] : List ReadItem),
            it.data = some (.parsed e)) ∨ isErrorResultEvent e = true) :=
  ⟨by decide, C2_no_raise 60 _ 0 [] (by decide)⟩

/-!
 ### Activity labels (claims C7, C8)
-/

/-- C7: evaluation of the code at the claim's input.  For a plain-text
assistant step of 100 repeated characters, `_event_to_activity` returns
the text unchanged — a label of length 100, not one truncated to at most
80 characters plus a one-character ellipsis (length ≤ 81) as the claim
(and the repository's own test, which asserts `len(result) <= 83`)
requires: the code truncates plain text only beyond 500 characters. -/
theorem C7_code_eval :
    eventToActivity ev100 = .ok (some (.str xs100)) ∧
      xs100.length = 100 ∧ ¬(xs100.length ≤ 81) := by
  refine ⟨?_, by decide, by decide⟩
  rfl

/-!
 ### Store lemmas (shared by claims C3-C6, C9, C10)
-/

lemma lookupFile_setFile_self (name : String) (c : FileContent) :
    ∀ store : Store, lookupFile (setFile store name c) name = some c := by
  intro store
  induction store with
  | nil => simp [setFile, lookupFile, List.find?]
  | cons f rest ih =>
    by_cases hf : f.1 = name
    · simp [setFile, hf, lookupFile, List.find?]
    · simpa [setFile, hf, lookupFile, List.find?] using ih

lemma lookupFile_setFile_ne (name name' : String) (c : FileContent)
    (h : name' ≠ name) :
    ∀ store : Store, lookupFile (setFile store name c) name' =
      lookupFile store name' := by
  have h2 : ¬ (name = name') := fun hh => h hh.symm
  intro store
  induction store with
  | nil => simp [setFile, lookupFile, List.find?, h2]
  | cons f rest ih =>
    by_cases hf : f.1 = name
    · have h3 : ¬ (f.1 = name') := by rw [hf]; exact h2
      simp [setFile, hf, lookupFile, List.find?, h2, h3]
    · by_cases hf' : f.1 = name'
      · simp [setFile, hf, lookupFile, List.find?, hf', h]
      · simpa [setFile, hf, lookupFile, List.find?, hf'] using ih

lemma get_setKey_self (k : String) (v : Json) :
    ∀ kvs : List (String × Json),
    Json.get (.obj (setKey kvs k v)) k = some v := by
  intro kvs
  induction kvs with
  | nil => simp [setKey, Json.get, List.find?]
  | cons kv rest ih =>
    by_cases hk : kv.1 = k
    · simp [setKey, hk, Json.get, List.find?]
    · simpa [setKey, hk, Json.get, List.find?] using ih

lemma get_setKey_ne (k k' : String) (v : Json) (h : k' ≠ k) :
    ∀ kvs : List (String × Json),
    Json.get (.obj (setKey kvs k v)) k' = Json.get (.obj kvs) k' := by
  have h2 : ¬ (k = k') := fun hh => h hh.symm
  intro kvs
  induction kvs with
  | nil => simp [setKey, Json.get, List.find?, h2]
  | cons kv rest ih =>
    by_cases hk : kv.1 = k
    · have h3 : ¬ (kv.1 = k') := by rw [hk]; exact h2
      simp [setKey, hk, Json.get, List.find?, h2, h3]
    · by_cases hk' : kv.1 = k'
      · simp [setKey, hk, Json.get, List.find?, hk', h]
      · simpa [setKey, hk, Json.get, List.find?, hk'] using ih

lemma setFile_names (name : String) (c : FileContent) :
    ∀ (store : Store) (f : String × FileContent), f ∈ setFile store name c →
      f.1 = name ∨ f.1 ∈ store.map Prod.fst := by
  intro store
  induction store with
  | nil =>
    intro f hf
    simp only [setFile, List.mem_singleton] at hf
    simp [hf]
  | cons g rest ih =>
    intro f hf
    have hsf : setFile (g :: rest) name c =
        if g.1 = name then (name, c) :: rest
        else g :: setFile rest name c := rfl
    rw [hsf] at hf
    by_cases hg : g.1 = name
    · rw [if_pos hg] at hf
      rcases List.mem_cons.1 hf with hf | hf
      · simp [hf]
      · exact .inr (by
          simp only [List.map_cons, List.mem_cons]
          exact .inr (List.mem_map_of_mem Prod.fst hf))
    · rw [if_neg hg] at hf
      rcases List.mem_cons.1 hf with hf | hf
      · subst hf
        exact .inr (by simp)
      · rcases ih f hf with h1 | h1
        · exact .inl h1
        · exact .inr (by
            simp only [List.map_cons, List.mem_cons]
            exact .inr h1)

/-!
 ### Orchestrator step lemmas (claims C3-C5)
-/

lemma actStep_fields (st : OrchState) (a : Option Json) :
    (actStep st a).resultText = st.resultText ∧
    (actStep st a).isError = st.isError ∧
    (actStep st a).posts = st.posts ∧
    (actStep st a).lastStatusAt = st.lastStatusAt ∧
    (∃ mid, (actStep st a).regOps = st.regOps ++ mid ∧
      mid.all (fun o => !o.isFin) = true) := by
  cases a with
  | none => exact ⟨rfl, rfl, rfl, rfl, ⟨[], by simp [actStep], rfl⟩⟩
  | some v =>
    by_cases hv : v.truthy = true
    · refine ⟨?_, ?_, ?_, ?_, ⟨[.updAct v], ?_, ?_⟩⟩ <;>
        simp [actStep, hv, RegOp.isFin]
    · refine ⟨?_, ?_, ?_, ?_, ⟨[], ?_, ?_⟩⟩ <;> simp [actStep, hv]

lemma resStep_fields (st : OrchState) (e : Json) :
    (resStep st e).resultText =
      (if isResultEv e = true then some (capturedOf e) else st.resultText) ∧
    (resStep st e).isError =
      (if isResultEv e = true then errFlagOf e else st.isError) ∧
    (resStep st e).posts = st.posts ∧
    (resStep st e).regOps = st.regOps ∧
    (resStep st e).lastStatusAt = st.lastStatusAt := by
  by_cases h : isResultEv e = true
  · have h' : optIsStr (e.get "type") "result" = true := h
    refine ⟨?_, ?_, ?_, ?_, ?_⟩ <;>
      simp [resStep, h', h, capturedOf, errFlagOf]
  · have h' : optIsStr (e.get "type") "result" = false := by
      simpa using h
    refine ⟨?_, ?_, ?_, ?_, ?_⟩ <;> simp [resStep, h', h]

lemma tickStep_fields (started : Nat) (st : OrchState) (now : Nat) :
    (tickStep started st now).resultText = st.resultText ∧
    (tickStep started st now).isError = st.isError ∧
    (tickStep started st now).regOps = st.regOps ∧
    (∃ more, (tickStep started st now).posts = st.posts ++ more) := by
  unfold tickStep
  split
  · exact ⟨rfl, rfl, rfl, ⟨_, rfl⟩⟩
  · exact ⟨rfl, rfl, rfl, ⟨[], by simp⟩⟩

lemma lastResult_cons (e : Json) (es : List Json) :
    lastResult (e :: es) =
      match lastResult es with
      | some r => some r
      | none => if isResultEv e = true then some e else none := by
  unfold lastResult
  by_cases he : isResultEv e = true
  · rw [List.filter_cons_of_pos he]
    cases hfe : es.filter isResultEv with
    | nil => simp [he]
    | cons x xs =>
      rw [List.getLast?_cons_cons]
      cases hl : (x :: xs).getLast? with
      | none => simp [List.getLast?] at hl
      | some r => rfl
  · rw [List.filter_cons_of_neg (by simpa using he)]
    cases hl : (es.filter isResultEv).getLast? with
    | none => simp [he]
    | some r => rfl

lemma activityBlocks_skip (b : Json) (rest : List Json)
    (h : skippable b = true) :
    activityBlocks (b :: rest) = activityBlocks rest := by
  cases b with
  | obj kvs =>
    simp only [skippable] at h
    rw [activityBlocks.eq_def]
    by_cases htool : optIsStr (Json.get (.obj kvs) "type") "tool_use" = true
    · simp [htool] at h
    · by_cases htext : optIsStr (Json.get (.obj kvs) "type") "text" = true
      · simp only [htool, htext, Bool.false_eq_true, if_false, if_true] at h ⊢
        match hm : pyOr (Json.getN (.obj kvs) "text") (.str "") with
        | .str s =>
          rw [hm] at h
          simp only [decide_eq_true_eq] at h
          simp [h]
        | .null | .bool _ | .num _ | .arr _ | .obj _ =>
          rw [hm] at h
          simp at h
      · simp [htool, htext]
  | null => rfl
  | bool b => rfl
  | num n => rfl
  | str s => rfl
  | arr xs => rfl

lemma activityBlocks_usable (b : Json) (rest : List Json)
    (h : usableBlock b = true) :
    activityBlocks (b :: rest) = .ok (renderBlockSpec b) := by
  cases b with
  | obj kvs =>
    simp only [usableBlock] at h
    rw [activityBlocks.eq_def]
    simp only [renderBlockSpec]
    by_cases htool : optIsStr (Json.get (.obj kvs) "type") "tool_use" = true
    · simp only [htool, if_true] at h ⊢
      match hm : pyOr (Json.getN (.obj kvs) "input") (.obj []) with
      | .obj ikvs => rfl
      | .null | .bool _ | .num _ | .str _ | .arr _ =>
        rw [hm] at h
        simp [Json.isObj] at h
    · by_cases htext : optIsStr (Json.get (.obj kvs) "type") "text" = true
      · simp only [htool, htext, Bool.false_eq_true, if_false, if_true] at h ⊢
        match hm : pyOr (Json.getN (.obj kvs) "text") (.str "") with
        | .str s =>
          rw [hm] at h
          simp only [decide_eq_true_eq] at h
          simp [h]
        | .null | .bool _ | .num _ | .arr _ | .obj _ =>
          rw [hm] at h
          simp at h
      · simp [htool, htext] at h
  | null => simp [usableBlock] at h
  | bool b => simp [usableBlock] at h
  | num n => simp [usableBlock] at h
  | str s => simp [usableBlock] at h
  | arr xs => simp [usableBlock] at h

lemma activityBlocks_all_skip (blocks : List Json)
    (h : ∀ x ∈ blocks, skippable x = true) :
    activityBlocks blocks = .ok none := by
  induction blocks with
  | nil => rfl
  | cons b rest ih =>
    rw [activityBlocks_skip b rest (h b (by simp))]
    exact ih (fun x hx => h x (by simp [hx]))

lemma eventToActivity_shape (e : Json) (blocks : List Json)
    (h : assistantShape e blocks) :
    eventToActivity e = activityBlocks blocks := by
  obtain ⟨hobj, hty, hmsg, hcontent⟩ := h
  match e with
  | .obj kvs =>
    simp only [eventToActivity, pyGetAttr, hty, if_true]
    match hm : pyOr (Json.getN (.obj kvs) "message") (.obj []) with
    | .obj mkvs =>
      rw [hm] at hcontent
      have hcontent' : pyOr ((Json.get (Json.obj mkvs) "content").getD
          Json.null) (.arr []) = .arr blocks := hcontent
      simp only [pyGetAttr, hcontent', pyIter]
    | .null | .bool _ | .num _ | .str _ | .arr _ =>
      rw [hm] at hmsg
      simp [Json.isObj] at hmsg

/-- C8: activity labels derived from assistant events.  Non-assistant
(dict) events derive no label; an assistant event whose content blocks are
all skippable (no usable content) derives no label; an assistant event
whose first usable block is `b` derives exactly the claim's rendering of
`b` — for a tool invocation, the tool name followed by the first non-empty
argument value truncated to 300 characters in quotes (or the bare tool
name), and for a plain text step the text trimmed and truncated to 500
characters with an ellipsis marker if cut; in particular tool `bash` with
argument `{"command": "ls /tmp"}` renders as `bash("ls /tmp")`. -/
theorem C8_activity_labels :
    (∀ kvs : List (String × Json),
      ¬ optIsStr (Json.get (.obj kvs) "type") "assistant" = true →
        eventToActivity (.obj kvs) = .ok none) ∧
    (∀ (e : Json) (blocks pre post : List Json) (b : Json),
      assistantShape e blocks → blocks = pre ++ b :: post →
      (∀ x ∈ pre, skippable x = true) → usableBlock b = true →
        eventToActivity e = .ok (renderBlockSpec b)) ∧
    (∀ (e : Json) (blocks : List Json),
      assistantShape e blocks → (∀ x ∈ blocks, skippable x = true) →
        eventToActivity e = .ok none) ∧
    eventToActivity bashEv = .ok (some (.str "bash(\"ls /tmp\")")) := by
  refine ⟨?_, ?_, ?_, ?_⟩
  · intro kvs hty
    unfold eventToActivity
    simp [pyGetAttr, Except.bind, hty]
  · intro e blocks pre post b hshape hdecomp hpre husable
    rw [eventToActivity_shape e blocks hshape, hdecomp]
    clear hdecomp hshape
    induction pre with
    | nil => exact activityBlocks_usable b post husable
    | cons x xs ih =>
      rw [List.cons_append, activityBlocks_skip x _ (hpre x (by simp))]
      exact ih (fun y hy => hpre y (by simp [hy]))
  · intro e blocks hshape hall
    rw [eventToActivity_shape e blocks hshape]
    exact activityBlocks_all_skip blocks hall
  · rfl

/-- C8 witness: the first-usable-block characterisation applied to the
spec's `bash` example event. -/
theorem C8_witness :
    assistantShape bashEv
        [.obj [("type", .str "tool_use"), ("name", .str "bash"),
          ("input", .obj [("command", .str "ls /tmp")])]] ∧
      usableBlock (.obj [("type", .str "tool_use"), ("name", .str "bash"),
        ("input", .obj [("command", .str "ls /tmp")])]) = true ∧
      eventToActivity bashEv = .ok (renderBlockSpec
        (.obj [("type", .str "tool_use"), ("name", .str "bash"),
          ("input", .obj [("command", .str "ls /tmp")])])) :=
  ⟨⟨rfl, rfl, rfl, rfl⟩, rfl,
    C8_activity_labels.2.1 bashEv _ [] [] _ ⟨rfl, rfl, rfl, rfl⟩ rfl
      (by intro x hx; simp at hx) rfl⟩

lemma finalResultText_cons (rt : Option Json) (e : Json) (es : List Json) :
    finalResultText rt (e :: es) =
      finalResultText (if isResultEv e = true then some (capturedOf e) else rt)
        es := by
  unfold finalResultText
  rw [lastResult_cons]
  cases hl : lastResult es with
  | some r => rfl
  | none => by_cases he : isResultEv e = true <;> simp [he]

lemma finalErr_cons (b : Bool) (e : Json) (es : List Json) :
    finalErr b (e :: es) =
      finalErr (if isResultEv e = true then errFlagOf e else b) es := by
  unfold finalErr
  rw [lastResult_cons]
  cases hl : lastResult es with
  | some r => rfl
  | none => by_cases he : isResultEv e = true <;> simp [he]

lemma cleanEv_ok (e : Json) (hp : cleanEv e = true) :
    ∃ a, eventToActivity e = .ok a := by
  cases hact : eventToActivity e with
  | ok a => exact ⟨a, rfl⟩
  | error m => simp [cleanEv, hact] at hp

lemma evFold_cons (started : Nat) (st : OrchState) (p : Nat × Json)
    (rest : List (Nat × Json)) (a : Option Json)
    (ha : eventToActivity p.2 = .ok a) :
    evFold started st (p :: rest) =
      evFold started (tickStep started (resStep (actStep st a) p.2) p.1)
        rest := by
  unfold evFold
  rw [List.foldl_cons]
  simp only [orchStep, ha]

lemma evFold_spec (started : Nat) :
    ∀ (evs : List (Nat × Json)) (st : OrchState),
    (∀ p ∈ evs, cleanEv p.2 = true) →
    (evFold started st evs).resultText =
      finalResultText st.resultText (evs.map Prod.snd) ∧
    (evFold started st evs).isError = finalErr st.isError (evs.map Prod.snd) ∧
    (∃ mid, (evFold started st evs).regOps = st.regOps ++ mid ∧
      mid.all (fun o => !o.isFin) = true) ∧
    (∃ more, (evFold started st evs).posts = st.posts ++ more) := by
  intro evs
  induction evs with
  | nil =>
    intro st h
    exact ⟨rfl, rfl, ⟨[], by simp [evFold], rfl⟩, ⟨[], by simp [evFold]⟩⟩
  | cons p rest ih =>
    intro st h
    obtain ⟨a, ha⟩ := cleanEv_ok p.2 (h p (by simp))
    obtain ⟨a1, a2, a3, a4, a5⟩ := actStep_fields st a
    obtain ⟨r1, r2, r3, r4, r5⟩ := resStep_fields (actStep st a) p.2
    obtain ⟨t1, t2, t3, t4⟩ :=
      tickStep_fields started (resStep (actStep st a) p.2) p.1
    obtain ⟨i1, i2, i3, i4⟩ :=
      ih (tickStep started (resStep (actStep st a) p.2) p.1)
        (fun q hq => h q (by simp [hq]))
    rw [evFold_cons started st p rest a ha]
    refine ⟨?_, ?_, ?_, ?_⟩
    · rw [i1, t1, r1, a1, List.map_cons, finalResultText_cons]
    · rw [i2, t2, r2, a2, List.map_cons, finalErr_cons]
    · obtain ⟨m1, hm1, hm1a⟩ := a5
      obtain ⟨m2, hm2, hm2a⟩ := i3
      refine ⟨m1 ++ m2, ?_, ?_⟩
      · rw [hm2, t3, r4, hm1, List.append_assoc]
      · rw [List.all_append, hm1a, hm2a]
        rfl
    · obtain ⟨m1, hm1⟩ := t4
      obtain ⟨m2, hm2⟩ := i4
      refine ⟨m1 ++ m2, ?_⟩
      rw [hm2, hm1, r3, a3, List.append_assoc]

lemma orchRun_evItems (started : Nat) :
    ∀ (evs : List (Nat × Json)) (st : OrchState) (tail : List StreamItem),
    (∀ p ∈ evs, cleanEv p.2 = true) →
    orchRun started st (evItems evs ++ tail) =
      orchRun started (evFold started st evs) tail := by
  intro evs
  induction evs with
  | nil => intro st tail h; rfl
  | cons p rest ih =>
    intro st tail h
    obtain ⟨a, ha⟩ := cleanEv_ok p.2 (h p (by simp))
    have hstep : orchStep started st p.1 p.2 =
        .ok (tickStep started (resStep (actStep st a) p.2) p.1) := by
      simp only [orchStep, ha]
    have h1 : evItems (p :: rest) ++ tail =
        .ev p.1 p.2 :: (evItems rest ++ tail) := by
      simp [evItems]
    rw [h1, orchRun.eq_def]
    simp only [hstep]
    rw [ih _ tail (fun q hq => h q (by simp [hq])),
      evFold_cons started st p rest a ha]

lemma orchRun_nil (started : Nat) (st : OrchState) :
    orchRun started st [] =
      { posts := st.posts ++ [match st.resultText with
          | some r =>
            if r.truthy then
              (if st.isError then "❌ " else "") ++ r.pyStr
            else "✓ Task completed."
          | none => "✓ Task completed."],
        regOps := st.regOps ++ [.fin (if st.isError then "error" else "done")],
        outcome := .returned } := by
  rw [orchRun.eq_def]

lemma orchRun_raise (started : Nat) (st : OrchState) (m : String)
    (rest : List StreamItem) :
    orchRun started st (.raiseErr m :: rest) =
      { posts := st.posts ++ ["❌ Task failed: " ++ m],
        regOps := st.regOps ++ [.fin "error"], outcome := .returned } := rfl

lemma orchRun_cancel (started : Nat) (st : OrchState)
    (rest : List StreamItem) :
    orchRun started st (.cancel :: rest) =
      { posts := st.posts ++ ["⏹ Task cancelled."],
        regOps := st.regOps ++ [.fin "cancelled"],
        outcome := .cancelRaised } := rfl

lemma filter_isFin_nil (mid : List RegOp)
    (h : mid.all (fun o => !o.isFin) = true) :
    mid.filter RegOp.isFin = [] := by
  rw [List.filter_eq_nil_iff]
  intro a ha
  have := (List.all_eq_true.1 h) a ha
  simp_all

lemma applyRegOps_fin_status (task_id : String) (s : String) :
    ∀ (mid : List RegOp) (store : Store) (kvs : List (String × Json)),
    mid.all (fun o => !o.isFin) = true →
    lookupFile store (fname task_id) = some (.json (.obj kvs)) →
    statusAt (applyRegOps task_id store (mid ++ [.fin s])) (fname task_id) =
      some (.str s) := by
  intro mid
  induction mid with
  | nil =>
    intro store kvs hall hl
    show statusAt (applyRegOps task_id
      (TaskRegistry.finish store task_id s) []) (fname task_id) = _
    unfold TaskRegistry.finish
    rw [hl]
    unfold applyRegOps statusAt
    rw [lookupFile_setFile_self]
    exact get_setKey_self _ _ _
  | cons o rest ih =>
    intro store kvs hall hl
    cases o with
    | updAct v =>
      show statusAt (applyRegOps task_id
        (TaskRegistry.update_activity store task_id v) (rest ++ [.fin s]))
        (fname task_id) = _
      unfold TaskRegistry.update_activity
      rw [hl]
      refine ih _ _ ?_ (by rw [lookupFile_setFile_self])
      simp only [List.all_cons, Bool.and_eq_true] at hall
      exact hall.2
    | fin s2 => simp [RegOp.isFin] at hall

/-- C3: for every cleanly-processed event sequence that ends without
raising and without cancellation, the orchestrator finalizes exactly once:
the single Finish call writes `error` iff the last result-typed event
carried the error flag (else `done`), the final outward message is the
captured result text prefixed with the error marker exactly when the flag
is set (or the generic completion acknowledgment when no non-empty result
text was captured), and replaying the Task Store calls yields that final
status for the task's record. -/
theorem C3_finalization (started : Nat) (evs : List (Nat × Json))
    (h : ∀ p ∈ evs, cleanEv p.2 = true) :
    (run_background_task started (evItems evs)).outcome = .returned ∧
    (run_background_task started (evItems evs)).regOps.filter RegOp.isFin =
      [.fin (finalStatusSpec (evs.map Prod.snd))] ∧
    (run_background_task started (evItems evs)).posts.getLast? =
      some (finalMsgSpec (evs.map Prod.snd)) ∧
    (∀ (store : Store) (id : String) (kvs : List (String × Json)),
      lookupFile store (fname id) = some (.json (.obj kvs)) →
      statusAt (applyRegOps id store
          (run_background_task started (evItems evs)).regOps) (fname id) =
        some (.str (finalStatusSpec (evs.map Prod.snd)))) := by
  have hrun : run_background_task started (evItems evs) =
      orchRun started (evFold started (initOrchState started) evs) [] := by
    unfold run_background_task
    rw [← List.append_nil (evItems evs),
      orchRun_evItems started evs _ [] h]
  obtain ⟨e1, e2, e3, e4⟩ := evFold_spec started evs (initOrchState started) h
  obtain ⟨mid, hmid, hmida⟩ := e3
  have hmid' : (evFold started (initOrchState started) evs).regOps = mid := by
    simpa [initOrchState] using hmid
  have e1' : (evFold started (initOrchState started) evs).resultText =
      finalResultText none (evs.map Prod.snd) := e1
  have e2' : (evFold started (initOrchState started) evs).isError =
      finalErr false (evs.map Prod.snd) := e2
  rw [hrun, orchRun_nil]
  refine ⟨rfl, ?_, ?_, ?_⟩
  · rw [hmid', List.filter_append, filter_isFin_nil mid hmida, e2']
    simp [RegOp.isFin, finalStatusSpec]
  · simp only [List.getLast?_concat]
    rw [e1', e2']
    rfl
  · intro store id kvs hl
    rw [show (evFold started (initOrchState started) evs).regOps ++
        [RegOp.fin (if (evFold started (initOrchState started) evs).isError
          then "error" else "done")] =
        mid ++ [.fin (finalStatusSpec (evs.map Prod.snd))] by
      rw [hmid', e2']
      simp [finalStatusSpec]]
    exact applyRegOps_fin_status id _ mid store kvs hmida hl

/-- C4: an exception raised by the stream (after any cleanly-processed
prefix) is absorbed: the orchestrator finishes the task as `error`, posts
a message containing the exception's description, and returns normally —
the exception does not propagate. -/
theorem C4_exception_absorbed (started : Nat) (evs : List (Nat × Json))
    (m : String) (rest : List StreamItem)
    (h : ∀ p ∈ evs, cleanEv p.2 = true) :
    (run_background_task started
        (evItems evs ++ .raiseErr m :: rest)).outcome = .returned ∧
    (run_background_task started
        (evItems evs ++ .raiseErr m :: rest)).regOps.filter RegOp.isFin =
      [.fin "error"] ∧
    (run_background_task started
        (evItems evs ++ .raiseErr m :: rest)).posts.getLast? =
      some ("❌ Task failed: " ++ m) ∧
    (∀ (store : Store) (id : String) (kvs : List (String × Json)),
      lookupFile store (fname id) = some (.json (.obj kvs)) →
      statusAt (applyRegOps id store
          (run_background_task started
            (evItems evs ++ .raiseErr m :: rest)).regOps) (fname id) =
        some (.str "error")) := by
  have hrun : run_background_task started (evItems evs ++ .raiseErr m :: rest) =
      orchRun started (evFold started (initOrchState started) evs)
        (.raiseErr m :: rest) := by
    unfold run_background_task
    rw [orchRun_evItems started evs _ _ h]
  obtain ⟨e1, e2, e3, e4⟩ := evFold_spec started evs (initOrchState started) h
  obtain ⟨mid, hmid, hmida⟩ := e3
  have hmid' : (evFold started (initOrchState started) evs).regOps = mid := by
    simpa [initOrchState] using hmid
  rw [hrun, orchRun_raise]
  refine ⟨rfl, ?_, ?_, ?_⟩
  · rw [hmid', List.filter_append, filter_isFin_nil mid hmida]
    simp [RegOp.isFin]
  · simp [List.getLast?_concat]
  · intro store id kvs hl
    rw [hmid']
    exact applyRegOps_fin_status id _ mid store kvs hmida hl

/-- C5: a cancellation delivered while consuming the stream (after any
cleanly-processed prefix) finishes the task as `cancelled`, posts the
cancellation notice, and re-raises: the orchestrator's outcome is the
propagated cancellation, distinguishable from a normal return. -/
theorem C5_cancellation (started : Nat) (evs : List (Nat × Json))
    (rest : List StreamItem)
    (h : ∀ p ∈ evs, cleanEv p.2 = true) :
    (run_background_task started
        (evItems evs ++ .cancel :: rest)).outcome = .cancelRaised ∧
    (run_background_task started
        (evItems evs ++ .cancel :: rest)).regOps.filter RegOp.isFin =
      [.fin "cancelled"] ∧
    (run_background_task started
        (evItems evs ++ .cancel :: rest)).posts.getLast? =
      some "⏹ Task cancelled." ∧
    (∀ (store : Store) (id : String) (kvs : List (String × Json)),
      lookupFile store (fname id) = some (.json (.obj kvs)) →
      statusAt (applyRegOps id store
          (run_background_task started
            (evItems evs ++ .cancel :: rest)).regOps) (fname id) =
        some (.str "cancelled")) := by
  have hrun : run_background_task started (evItems evs ++ .cancel :: rest) =
      orchRun started (evFold started (initOrchState started) evs)
        (.cancel :: rest) := by
    unfold run_background_task
    rw [orchRun_evItems started evs _ _ h]
  obtain ⟨e1, e2, e3, e4⟩ := evFold_spec started evs (initOrchState started) h
  obtain ⟨mid, hmid, hmida⟩ := e3
  have hmid' : (evFold started (initOrchState started) evs).regOps = mid := by
    simpa [initOrchState] using hmid
  rw [hrun, orchRun_cancel]
  refine ⟨rfl, ?_, ?_, ?_⟩
  · rw [hmid', List.filter_append, filter_isFin_nil mid hmida]
    simp [RegOp.isFin]
  · simp [List.getLast?_concat]
  · intro store id kvs hl
    rw [hmid']
    exact applyRegOps_fin_status id _ mid store kvs hmida hl

/-- C3 witness: the finalization theorem applied to the spec's example
stream (a `bash` tool step followed by the `"All done!"` result). -/
theorem C3_witness :
    (∀ p ∈ ([(0, bashEv), (0, resDoneEv)] : List (Nat × Json)),
      cleanEv p.2 = true) ∧
    ((run_background_task 0 (evItems [(0, bashEv), (0, resDoneEv)])).outcome
        = .returned ∧
      (run_background_task 0
          (evItems [(0, bashEv), (0, resDoneEv)])).regOps.filter RegOp.isFin =
        [.fin (finalStatusSpec ([(0, bashEv), (0, resDoneEv)].map Prod.snd))] ∧
      (run_background_task 0
          (evItems [(0, bashEv), (0, resDoneEv)])).posts.getLast? =
        some (finalMsgSpec ([(0, bashEv), (0, resDoneEv)].map Prod.snd)) ∧
      (∀ (store : Store) (id : String) (kvs : List (String × Json)),
        lookupFile store (fname id) = some (.json (.obj kvs)) →
        statusAt (applyRegOps id store
            (run_background_task 0
              (evItems [(0, bashEv), (0, resDoneEv)])).regOps) (fname id) =
          some (.str (finalStatusSpec
            ([(0, bashEv), (0, resDoneEv)].map Prod.snd))))) :=
  ⟨by decide, C3_finalization 0 [(0, bashEv), (0, resDoneEv)] (by decide)⟩

/-- C4 witness: the absorption theorem applied to a stream raising
`RuntimeError("subprocess exploded")` after one clean event. -/
theorem C4_witness :
    (∀ p ∈ ([(0, bashEv)] : List (Nat × Json)), cleanEv p.2 = true) ∧
    ((run_background_task 0 (evItems [(0, bashEv)] ++
        .raiseErr "subprocess exploded" :: [])).outcome = .returned ∧
      (run_background_task 0 (evItems [(0, bashEv)] ++
          .raiseErr "subprocess exploded" :: [])).regOps.filter RegOp.isFin =
        [.fin "error"] ∧
      (run_background_task 0 (evItems [(0, bashEv)] ++
          .raiseErr "subprocess exploded" :: [])).posts.getLast? =
        some ("❌ Task failed: " ++ "subprocess exploded") ∧
      (∀ (store : Store) (id : String) (kvs : List (String × Json)),
        lookupFile store (fname id) = some (.json (.obj kvs)) →
        statusAt (applyRegOps id store
            (run_background_task 0 (evItems [(0, bashEv)] ++
              .raiseErr "subprocess exploded" :: [])).regOps) (fname id) =
          some (.str "error"))) :=
  ⟨by decide,
    C4_exception_absorbed 0 [(0, bashEv)] "subprocess exploded" [] (by decide)⟩

/-- C5 witness: the cancellation theorem applied to a stream cancelled
after one clean event. -/
theorem C5_witness :
    (∀ p ∈ ([(0, bashEv)] : List (Nat × Json)), cleanEv p.2 = true) ∧
    ((run_background_task 0 (evItems [(0, bashEv)] ++
        .cancel :: [])).outcome = .cancelRaised ∧
      (run_background_task 0 (evItems [(0, bashEv)] ++
          .cancel :: [])).regOps.filter RegOp.isFin = [.fin "cancelled"] ∧
      (run_background_task 0 (evItems [(0, bashEv)] ++
          .cancel :: [])).posts.getLast? = some "⏹ Task cancelled." ∧
      (∀ (store : Store) (id : String) (kvs : List (String × Json)),
        lookupFile store (fname id) = some (.json (.obj kvs)) →
        statusAt (applyRegOps id store
            (run_background_task 0 (evItems [(0, bashEv)] ++
              .cancel :: [])).regOps) (fname id) =
          some (.str "cancelled"))) :=
  ⟨by decide, C5_cancellation 0 [(0, bashEv)] [] (by decide)⟩

/-!
 ### Task Store frame properties (claim C10)
-/

/-- C10: for an existing, parseable (dict) task record,
`update_activity(id, act)` rewrites exactly the `last_activity` binding
and `finish(id, s)` rewrites exactly the `status` binding: every other
key of the record keeps its value, and every other file of the store is
untouched. -/
theorem C10_frame (store : Store) (id : String) (kvs : List (String × Json))
    (act : Json) (s : String)
    (hl : lookupFile store (fname id) = some (.json (.obj kvs))) :
    (lookupFile (TaskRegistry.update_activity store id act) (fname id) =
        some (.json (.obj (setKey kvs "last_activity" act))) ∧
      Json.get (.obj (setKey kvs "last_activity" act)) "last_activity" =
        some act ∧
      (∀ k, k ≠ "last_activity" →
        Json.get (.obj (setKey kvs "last_activity" act)) k =
          Json.get (.obj kvs) k) ∧
      (∀ n, n ≠ fname id →
        lookupFile (TaskRegistry.update_activity store id act) n =
          lookupFile store n)) ∧
    (lookupFile (TaskRegistry.finish store id s) (fname id) =
        some (.json (.obj (setKey kvs "status" (.str s)))) ∧
      Json.get (.obj (setKey kvs "status" (.str s))) "status" =
        some (.str s) ∧
      (∀ k, k ≠ "status" →
        Json.get (.obj (setKey kvs "status" (.str s))) k =
          Json.get (.obj kvs) k) ∧
      (∀ n, n ≠ fname id →
        lookupFile (TaskRegistry.finish store id s) n = lookupFile store n)) := by
  constructor
  · refine ⟨?_, ?_, ?_, ?_⟩
    · unfold TaskRegistry.update_activity
      rw [hl, lookupFile_setFile_self]
    · exact get_setKey_self _ _ _
    · intro k hk
      exact get_setKey_ne _ _ _ hk _
    · intro n hn
      unfold TaskRegistry.update_activity
      rw [hl, lookupFile_setFile_ne _ _ _ hn]
  · refine ⟨?_, ?_, ?_, ?_⟩
    · unfold TaskRegistry.finish
      rw [hl, lookupFile_setFile_self]
    · exact get_setKey_self _ _ _
    · intro k hk
      exact get_setKey_ne _ _ _ hk _
    · intro n hn
      unfold TaskRegistry.finish
      rw [hl, lookupFile_setFile_ne _ _ _ hn]

/-- C10 witness: the frame theorem applied to a one-record store. -/
theorem C10_witness :
    lookupFile [(fname "a", .json (.obj (newRecordJson "a" "discord" "c1"
        "task" 5)))] (fname "a") =
      some (.json (.obj (newRecordJson "a" "discord" "c1" "task" 5))) ∧
    (lookupFile (TaskRegistry.update_activity
        [(fname "a", .json (.obj (newRecordJson "a" "discord" "c1" "task" 5)))]
        "a" (.str "bash(\"ls\")")) (fname "a") =
      some (.json (.obj (setKey (newRecordJson "a" "discord" "c1" "task" 5)
        "last_activity" (.str "bash(\"ls\")")))) ∧
      Json.get (.obj (setKey (newRecordJson "a" "discord" "c1" "task" 5)
          "last_activity" (.str "bash(\"ls\")"))) "last_activity" =
        some (.str "bash(\"ls\")") ∧
      (∀ k, k ≠ "last_activity" →
        Json.get (.obj (setKey (newRecordJson "a" "discord" "c1" "task" 5)
            "last_activity" (.str "bash(\"ls\")"))) k =
          Json.get (.obj (newRecordJson "a" "discord" "c1" "task" 5)) k) ∧
      (∀ n, n ≠ fname "a" →
        lookupFile (TaskRegistry.update_activity
            [(fname "a", .json (.obj (newRecordJson "a" "discord" "c1"
              "task" 5)))] "a" (.str "bash(\"ls\")")) n =
          lookupFile [(fname "a", .json (.obj (newRecordJson "a" "discord"
            "c1" "task" 5)))] n)) :=
  ⟨rfl, (C10_frame [(fname "a", .json (.obj (newRecordJson "a" "discord" "c1"
    "task" 5)))] "a" (newRecordJson "a" "discord" "c1" "task" 5)
    (.str "bash(\"ls\")") "done" rfl).1⟩

/-!
 ### DrainStale (claim C6)
-/

lemma drain_mem_iff (store : Store) (r : TaskRecord) :
    r ∈ (TaskRegistry.drain_stale store).1 ↔
      ∃ f ∈ store, String.endsWith f.1 ".json" = true ∧
        TaskRegistry.runningRecord f.2 = some r := by
  unfold TaskRegistry.drain_stale TaskRegistry.sortedJsonFiles
  simp only [List.mem_filterMap]
  constructor
  · rintro ⟨f, hf, hr⟩
    have hf' : f ∈ store.filter (fun f => String.endsWith f.1 ".json") :=
      (List.mergeSort_perm _ _).mem_iff.1 hf
    rw [List.mem_filter] at hf'
    exact ⟨f, hf'.1, hf'.2, hr⟩
  · rintro ⟨f, hf, hext, hr⟩
    refine ⟨f, ?_, hr⟩
    exact (List.mergeSort_perm _ _).mem_iff.2 (List.mem_filter.2 ⟨hf, hext⟩)

lemma drainFile_obj (kvs : List (String × Json)) :
    TaskRegistry.drainFile (.json (.obj kvs)) =
      if optIsStr (Json.get (.obj kvs) "status") "running" = true ∧
          (recordOf kvs).isSome = true then
        .json (.obj (setKey kvs "status" (.str "stale")))
      else .json (.obj kvs) := rfl

lemma runningRecord_obj (kvs : List (String × Json)) :
    TaskRegistry.runningRecord (.json (.obj kvs)) =
      if optIsStr (Json.get (.obj kvs) "status") "running" = true then
        recordOf kvs
      else none := rfl

lemma runningRecord_drainFile (c : FileContent) :
    TaskRegistry.runningRecord (TaskRegistry.drainFile c) = none := by
  cases c with
  | corrupt => rfl
  | json j =>
    cases j with
    | obj kvs =>
      rw [drainFile_obj]
      by_cases hcond : optIsStr (Json.get (.obj kvs) "status") "running" = true
        ∧ (recordOf kvs).isSome = true
      · rw [if_pos hcond, runningRecord_obj, get_setKey_self]
        simp [optIsStr]
      · rw [if_neg hcond, runningRecord_obj]
        by_cases h1 : optIsStr (Json.get (.obj kvs) "status") "running" = true
        · rw [if_pos h1]
          cases hrec : recordOf kvs with
          | none => rfl
          | some r => exact absurd ⟨h1, by rw [hrec]; rfl⟩ hcond
        · rw [if_neg h1]
    | null => rfl
    | bool b => rfl
    | num n => rfl
    | str s => rfl
    | arr xs => rfl

lemma lookupFile_drainMap (name : String) :
    ∀ store : Store,
    lookupFile (store.map (fun f =>
        if String.endsWith f.1 ".json" then (f.1, TaskRegistry.drainFile f.2)
        else f)) name =
      (lookupFile store name).map (fun c =>
        if String.endsWith name ".json" then TaskRegistry.drainFile c
        else c) := by
  intro store
  induction store with
  | nil => rfl
  | cons f rest ih =>
    by_cases hf : f.1 = name
    · cases hext : String.endsWith name ".json" with
      | true =>
        have hext' : String.endsWith f.1 ".json" = true := by rw [hf, hext]
        simp [lookupFile, List.find?, hext', hf, hext]
      | false =>
        have hext' : String.endsWith f.1 ".json" = false := by rw [hf, hext]
        simp [lookupFile, List.find?, hext', hf, hext]
    · cases hext' : String.endsWith f.1 ".json" with
      | true => simpa [lookupFile, List.find?, hext', hf] using ih
      | false => simpa [lookupFile, List.find?, hext', hf] using ih

lemma sorted_perm_eq :
    ∀ (l1 l2 : Store), l1.Perm l2 →
    List.Pairwise (fun a b : String × FileContent => a.1 ≤ b.1) l1 →
    List.Pairwise (fun a b : String × FileContent => a.1 ≤ b.1) l2 →
    (l1.map Prod.fst).Nodup → l1 = l2 := by
  intro l1
  induction l1 with
  | nil =>
    intro l2 hp _ _ _
    exact List.Perm.nil_eq hp
  | cons a t1 ih =>
    intro l2 hp hs1 hs2 hnd
    cases l2 with
    | nil => exact absurd hp.symm.nil_eq (by simp)
    | cons b t2 =>
      have hab : a = b := by
        have ha2 : a ∈ b :: t2 := hp.mem_iff.1 (by simp)
        have hb1 : b ∈ a :: t1 := hp.symm.mem_iff.1 (by simp)
        rcases List.mem_cons.1 ha2 with h | ha2
        · exact h
        rcases List.mem_cons.1 hb1 with h | hb1
        · exact h.symm
        have h1 : a.1 ≤ b.1 := (List.pairwise_cons.1 hs1).1 b hb1
        have h2 : b.1 ≤ a.1 := (List.pairwise_cons.1 hs2).1 a ha2
        have hkey : a.1 = b.1 := le_antisymm h1 h2
        exfalso
        have : a.1 ∈ t1.map Prod.fst := by
          rw [hkey]
          exact List.mem_map_of_mem Prod.fst hb1
        exact (List.nodup_cons.1 (by simpa using hnd)).1 this
      subst hab
      have ht : t1.Perm t2 := hp.cons_inv
      rw [ih t2 ht (List.pairwise_cons.1 hs1).2 (List.pairwise_cons.1 hs2).2
        (List.nodup_cons.1 (by simpa using hnd)).2]

lemma sortedJsonFiles_perm_eq (store1 store2 : Store)
    (hp : store2.Perm store1) (hnd : (store1.map Prod.fst).Nodup) :
    TaskRegistry.sortedJsonFiles store2 = TaskRegistry.sortedJsonFiles store1 := by
  have htrans : ∀ a b c : String × FileContent,
      (decide (a.1 ≤ b.1)) = true → (decide (b.1 ≤ c.1)) = true →
      (decide (a.1 ≤ c.1)) = true := by
    intro a b c hab hbc
    simp only [decide_eq_true_eq] at hab hbc ⊢
    exact le_trans hab hbc
  have htotal : ∀ a b : String × FileContent,
      ((decide (a.1 ≤ b.1)) || (decide (b.1 ≤ a.1))) = true := by
    intro a b
    simpa using le_total a.1 b.1
  have hs2 := @List.sorted_mergeSort (String × FileContent)
    (fun a b => decide (a.1 ≤ b.1)) htrans htotal
    (store2.filter (fun f => String.endsWith f.1 ".json"))
  have hs1 := @List.sorted_mergeSort (String × FileContent)
    (fun a b => decide (a.1 ≤ b.1)) htrans htotal
    (store1.filter (fun f => String.endsWith f.1 ".json"))
  have hperm : (TaskRegistry.sortedJsonFiles store2).Perm
      (TaskRegistry.sortedJsonFiles store1) := by
    unfold TaskRegistry.sortedJsonFiles
    exact ((List.mergeSort_perm _ _).trans (hp.filter _)).trans
      (List.mergeSort_perm _ _).symm
  have hnd' : ((TaskRegistry.sortedJsonFiles store1).map Prod.fst).Nodup := by
    have hsub : (store1.filter (fun f => String.endsWith f.1 ".json")).Sublist
        store1 := List.filter_sublist _
    have h1 : ((store1.filter
        (fun f => String.endsWith f.1 ".json")).map Prod.fst).Nodup :=
      List.Nodup.sublist (hsub.map Prod.fst) hnd
    exact (((List.mergeSort_perm _ _).map Prod.fst).nodup_iff).2 h1
  have := sorted_perm_eq (TaskRegistry.sortedJsonFiles store1)
    (TaskRegistry.sortedJsonFiles store2) hperm.symm
    (by
      unfold TaskRegistry.sortedJsonFiles
      exact hs1.imp (by simp))
    (by
      unfold TaskRegistry.sortedJsonFiles
      exact hs2.imp (by simp))
    hnd'
  exact this.symm

/-- C6: `drain_stale` returns exactly the parseable records whose
persisted status is `running` among the `*.json` files (membership
characterisation), rewrites each such file's status to `stale`, scans in
lexical file-name order, is insensitive to the on-disk enumeration order
(deterministic for a fixed file set), and a second call on the resulting
store returns the empty list. -/
theorem C6_drain_stale (store : Store) :
    (∀ r, r ∈ (TaskRegistry.drain_stale store).1 ↔
      ∃ f ∈ store, String.endsWith f.1 ".json" = true ∧
        TaskRegistry.runningRecord f.2 = some r) ∧
    (∀ (name : String) (c : FileContent) (r : TaskRecord),
      lookupFile store name = some c → String.endsWith name ".json" = true →
      TaskRegistry.runningRecord c = some r →
      statusAt (TaskRegistry.drain_stale store).2 name =
        some (.str "stale")) ∧
    List.Pairwise (· ≤ ·)
      ((TaskRegistry.sortedJsonFiles store).map Prod.fst) ∧
    (∀ store2 : Store, store2.Perm store → (store.map Prod.fst).Nodup →
      (TaskRegistry.drain_stale store2).1 =
        (TaskRegistry.drain_stale store).1) ∧
    (TaskRegistry.drain_stale (TaskRegistry.drain_stale store).2).1 = [] := by
  refine ⟨drain_mem_iff store, ?_, ?_, ?_, ?_⟩
  · intro name c r hl hext hr
    show statusAt (store.map _) name = _
    unfold statusAt
    rw [lookupFile_drainMap, hl]
    have hm : Option.map (fun c =>
        if String.endsWith name ".json" then TaskRegistry.drainFile c else c)
        (some c) = some (TaskRegistry.drainFile c) := by
      simp [hext]
    rw [hm]
    cases c with
    | corrupt => simp [TaskRegistry.runningRecord] at hr
    | json j =>
      cases j with
      | obj kvs =>
        rw [runningRecord_obj] at hr
        by_cases h1 : optIsStr (Json.get (.obj kvs) "status") "running" = true
        · rw [if_pos h1] at hr
          rw [drainFile_obj, if_pos ⟨h1, by rw [hr]; rfl⟩]
          show Json.get (.obj (setKey kvs "status" (.str "stale"))) "status" =
            some (.str "stale")
          exact get_setKey_self _ _ _
        · rw [if_neg h1] at hr
          exact absurd hr (by simp)
      | null => simp [TaskRegistry.runningRecord] at hr
      | bool b => simp [TaskRegistry.runningRecord] at hr
      | num n => simp [TaskRegistry.runningRecord] at hr
      | str s => simp [TaskRegistry.runningRecord] at hr
      | arr xs => simp [TaskRegistry.runningRecord] at hr
  · have htrans : ∀ a b c : String × FileContent,
        (decide (a.1 ≤ b.1)) = true → (decide (b.1 ≤ c.1)) = true →
        (decide (a.1 ≤ c.1)) = true := by
      intro a b c hab hbc
      simp only [decide_eq_true_eq] at hab hbc ⊢
      exact le_trans hab hbc
    have htotal : ∀ a b : String × FileContent,
        ((decide (a.1 ≤ b.1)) || (decide (b.1 ≤ a.1))) = true := by
      intro a b
      simpa using le_total a.1 b.1
    have hs := @List.sorted_mergeSort (String × FileContent)
      (fun a b => decide (a.1 ≤ b.1)) htrans htotal
      (store.filter (fun f => String.endsWith f.1 ".json"))
    rw [List.pairwise_map]
    unfold TaskRegistry.sortedJsonFiles
    exact hs.imp (by simp)
  · intro store2 hp hnd
    unfold TaskRegistry.drain_stale
    rw [sortedJsonFiles_perm_eq store store2 hp hnd]
  · rw [List.eq_nil_iff_forall_not_mem]
    intro r hr
    obtain ⟨f, hf, hext, hrun⟩ := (drain_mem_iff _ r).1 hr
    obtain ⟨f0, hf0, hf0eq⟩ := List.mem_map.1 hf
    by_cases h0 : String.endsWith f0.1 ".json" = true
    · rw [if_pos h0] at hf0eq
      rw [← hf0eq] at hrun
      exact absurd hrun (by simp [runningRecord_drainFile])
    · rw [if_neg h0] at hf0eq
      rw [← hf0eq] at hext
      exact h0 hext

/-- C6 witness: the drain theorem applied to a two-record store — the
enumeration-order hypothesis discharged with an explicit permutation, the
name-uniqueness hypothesis by computation — plus the second-drain-empty
conclusion at the same store. -/
theorem C6_witness :
    ([fileB, fileA] : Store).Perm [fileA, fileB] ∧
    (([fileA, fileB] : Store).map Prod.fst).Nodup ∧
    (TaskRegistry.drain_stale [fileB, fileA]).1 =
      (TaskRegistry.drain_stale [fileA, fileB]).1 ∧
    (TaskRegistry.drain_stale
      (TaskRegistry.drain_stale [fileA, fileB]).2).1 = [] :=
  ⟨List.Perm.swap fileA fileB [], by decide,
    (C6_drain_stale [fileA, fileB]).2.2.2.1 [fileB, fileA]
      (List.Perm.swap fileA fileB []) (by decide),
    (C6_drain_stale [fileA, fileB]).2.2.2.2⟩

/-!
 ### Status transitions (claim C9)
-/

lemma fname_inj {a b : String} (h : fname a = fname b) : a = b := by
  have hd := congrArg String.data h
  simp only [fname, String.data_append] at hd
  exact String.ext (List.append_cancel_right hd)

lemma optIsStr_true_iff (o : Option Json) (s : String) :
    optIsStr o s = true ↔ o = some (.str s) := by
  cases o with
  | none => simp [optIsStr]
  | some j => cases j <;> simp [optIsStr]

lemma lookup_some_name_mem (store : Store) (name : String) (c : FileContent)
    (h : lookupFile store name = some c) : name ∈ store.map Prod.fst := by
  unfold lookupFile at h
  cases hf : store.find? (fun f => f.1 = name) with
  | none => rw [hf] at h; simp at h
  | some f =>
    have hmem := List.mem_of_find?_eq_some hf
    have hpred := List.find?_some hf
    simp only [decide_eq_true_eq] at hpred
    exact hpred ▸ List.mem_map_of_mem Prod.fst hmem

lemma lookupFile_eq_none (store : Store) (names : List String) (name : String)
    (hn : NamesInv store names) (h : name ∉ names) :
    lookupFile store name = none := by
  cases hl : lookupFile store name with
  | none => rfl
  | some c =>
    exfalso
    have := lookup_some_name_mem store name c hl
    obtain ⟨f, hf, hfe⟩ := List.mem_map.1 this
    exact h (hfe ▸ hn f hf)

lemma statusAt_create_self (store : Store)
    (id channel chat_id prompt : String) (t : Int) :
    statusAt (TaskRegistry.create store id channel chat_id prompt t)
      (fname id) = some (.str "running") := by
  unfold TaskRegistry.create statusAt
  rw [lookupFile_setFile_self]
  rfl

lemma statusAt_create_ne (store : Store)
    (id channel chat_id prompt : String) (t : Int) (name : String)
    (h : name ≠ fname id) :
    statusAt (TaskRegistry.create store id channel chat_id prompt t) name =
      statusAt store name := by
  unfold TaskRegistry.create statusAt
  rw [lookupFile_setFile_ne _ _ _ h]

lemma statusAt_update (store : Store) (id0 : String) (v : Json)
    (name : String) :
    statusAt (TaskRegistry.update_activity store id0 v) name =
      statusAt store name := by
  unfold TaskRegistry.update_activity
  cases hl : lookupFile store (fname id0) with
  | none => rfl
  | some c =>
    cases c with
    | corrupt => rfl
    | json j =>
      cases j with
      | obj kvs =>
        by_cases hn : name = fname id0
        · subst hn
          unfold statusAt
          rw [lookupFile_setFile_self, hl]
          exact get_setKey_ne _ _ _ (by decide) _
        · unfold statusAt
          rw [lookupFile_setFile_ne _ _ _ hn]
      | null => rfl
      | bool b => rfl
      | num n => rfl
      | str s => rfl
      | arr xs => rfl

lemma statusAt_finish_self (store : Store) (id0 s : String)
    (kvs : List (String × Json))
    (hl : lookupFile store (fname id0) = some (.json (.obj kvs))) :
    statusAt (TaskRegistry.finish store id0 s) (fname id0) =
      some (.str s) := by
  unfold TaskRegistry.finish
  rw [hl]
  unfold statusAt
  rw [lookupFile_setFile_self]
  exact get_setKey_self _ _ _

lemma statusAt_finish_ne (store : Store) (id0 s name : String)
    (h : name ≠ fname id0) :
    statusAt (TaskRegistry.finish store id0 s) name = statusAt store name := by
  unfold TaskRegistry.finish
  cases hl : lookupFile store (fname id0) with
  | none => rfl
  | some c =>
    cases c with
    | corrupt => rfl
    | json j =>
      cases j with
      | obj kvs =>
        unfold statusAt
        rw [lookupFile_setFile_ne _ _ _ h]
      | null => rfl
      | bool b => rfl
      | num n => rfl
      | str s2 => rfl
      | arr xs => rfl

lemma statusAt_drain (store : Store) (name : String) :
    statusAt (TaskRegistry.drain_stale store).2 name = statusAt store name ∨
      (statusAt store name = some (.str "running") ∧
        statusAt (TaskRegistry.drain_stale store).2 name =
          some (.str "stale")) := by
  have hsnd : (TaskRegistry.drain_stale store).2 = store.map (fun f =>
      if String.endsWith f.1 ".json" then (f.1, TaskRegistry.drainFile f.2)
      else f) := rfl
  rw [hsnd]
  unfold statusAt
  rw [lookupFile_drainMap]
  cases hl : lookupFile store name with
  | none => exact .inl rfl
  | some c =>
    by_cases hext : String.endsWith name ".json" = true
    · have hm : Option.map (fun c =>
          if String.endsWith name ".json" then TaskRegistry.drainFile c
          else c) (some c) = some (TaskRegistry.drainFile c) := by
        simp [hext]
      rw [hm]
      cases c with
      | corrupt => exact .inl rfl
      | json j =>
        cases j with
        | obj kvs =>
          rw [drainFile_obj]
          by_cases hcond : optIsStr (Json.get (.obj kvs) "status") "running"
              = true ∧ (recordOf kvs).isSome = true
          · right
            rw [if_pos hcond]
            exact ⟨(optIsStr_true_iff _ _).1 hcond.1,
              get_setKey_self _ _ _⟩
          · left
            rw [if_neg hcond]
        | null => exact .inl rfl
        | bool b => exact .inl rfl
        | num n => exact .inl rfl
        | str s => exact .inl rfl
        | arr xs => exact .inl rfl
    · have hm : Option.map (fun c =>
          if String.endsWith name ".json" then TaskRegistry.drainFile c
          else c) (some c) = some c := by
        simp [hext]
      rw [hm]
      exact .inl rfl

lemma names_of_mem_map (store : Store) (names : List String) (name : String)
    (hn : NamesInv store names) (h : name ∈ store.map Prod.fst) :
    name ∈ names := by
  obtain ⟨g, hg, hge⟩ := List.mem_map.1 h
  exact hge ▸ hn g hg

lemma names_create (store : Store) (names : List String)
    (id channel chat_id prompt : String) (t : Int)
    (hn : NamesInv store names) :
    NamesInv (TaskRegistry.create store id channel chat_id prompt t)
      (fname id :: names) := by
  intro f hf
  rcases setFile_names _ _ _ f hf with h1 | h1
  · simp [h1]
  · exact List.mem_cons.2 (.inr (names_of_mem_map store names f.1 hn h1))

lemma names_update (store : Store) (names : List String) (id0 : String)
    (v : Json) (hn : NamesInv store names) :
    NamesInv (TaskRegistry.update_activity store id0 v) names := by
  unfold TaskRegistry.update_activity
  cases hl : lookupFile store (fname id0) with
  | none => exact hn
  | some c =>
    cases c with
    | corrupt => exact hn
    | json j =>
      cases j with
      | obj kvs =>
        intro f hf
        rcases setFile_names _ _ _ f hf with h1 | h1
        · rw [h1]
          exact names_of_mem_map store names _ hn
            (lookup_some_name_mem store _ _ hl)
        · exact names_of_mem_map store names f.1 hn h1
      | null => exact hn
      | bool b => exact hn
      | num n => exact hn
      | str s => exact hn
      | arr xs => exact hn

lemma names_finish (store : Store) (names : List String) (id0 s : String)
    (hn : NamesInv store names) :
    NamesInv (TaskRegistry.finish store id0 s) names := by
  unfold TaskRegistry.finish
  cases hl : lookupFile store (fname id0) with
  | none => exact hn
  | some c =>
    cases c with
    | corrupt => exact hn
    | json j =>
      cases j with
      | obj kvs =>
        intro f hf
        rcases setFile_names _ _ _ f hf with h1 | h1
        · rw [h1]
          exact names_of_mem_map store names _ hn
            (lookup_some_name_mem store _ _ hl)
        · exact names_of_mem_map store names f.1 hn h1
      | null => exact hn
      | bool b => exact hn
      | num n => exact hn
      | str s2 => exact hn
      | arr xs => exact hn

lemma names_drain (store : Store) (names : List String)
    (hn : NamesInv store names) :
    NamesInv (TaskRegistry.drain_stale store).2 names := by
  intro f hf
  have hsnd : (TaskRegistry.drain_stale store).2 = store.map (fun f =>
      if String.endsWith f.1 ".json" then (f.1, TaskRegistry.drainFile f.2)
      else f) := rfl
  rw [hsnd] at hf
  obtain ⟨g, hg, hge⟩ := List.mem_map.1 hf
  have hname : f.1 = g.1 := by
    by_cases h0 : String.endsWith g.1 ".json" = true
    · rw [if_pos h0] at hge
      rw [← hge]
    · rw [if_neg h0] at hge
      rw [← hge]
  rw [hname]
  exact hn g hg

lemma active_create (store : Store) (names active : List String)
    (id channel chat_id prompt : String) (t : Int)
    (hn : NamesInv store names) (h : ActiveInv store active)
    (hfresh : fname id ∉ names) :
    ActiveInv (TaskRegistry.create store id channel chat_id prompt t)
      (id :: active) := by
  intro id2 hid2
  rcases List.mem_cons.1 hid2 with h1 | h1
  · subst h1
    refine ⟨newRecordJson id2 channel chat_id prompt t, ?_, rfl⟩
    unfold TaskRegistry.create
    rw [lookupFile_setFile_self]
  · obtain ⟨kvs, hl, hs⟩ := h id2 h1
    have hne : fname id2 ≠ fname id := by
      intro hh
      apply hfresh
      rw [← hh]
      exact names_of_mem_map store names (fname id2) hn
        (lookup_some_name_mem _ _ _ hl)
    refine ⟨kvs, ?_, hs⟩
    unfold TaskRegistry.create
    rw [lookupFile_setFile_ne _ _ _ hne]
    exact hl

lemma active_update (store : Store) (id0 : String) (v : Json)
    (active : List String) (h : ActiveInv store active) :
    ActiveInv (TaskRegistry.update_activity store id0 v) active := by
  intro id hid
  obtain ⟨kvs, hl, hs⟩ := h id hid
  unfold TaskRegistry.update_activity
  cases hl0 : lookupFile store (fname id0) with
  | none => exact ⟨kvs, hl, hs⟩
  | some c =>
    cases c with
    | corrupt => exact ⟨kvs, hl, hs⟩
    | json j =>
      cases j with
      | obj kvs0 =>
        by_cases hne : fname id = fname id0
        · have hkv : kvs0 = kvs := by
            rw [hne] at hl
            have := hl0.symm.trans hl
            simpa using this
          refine ⟨setKey kvs0 "last_activity" v, ?_, ?_⟩
          · rw [hne, lookupFile_setFile_self]
          · rw [get_setKey_ne _ _ _ (by decide), hkv]
            exact hs
        · exact ⟨kvs, by rw [lookupFile_setFile_ne _ _ _ hne]; exact hl, hs⟩
      | null => exact ⟨kvs, hl, hs⟩
      | bool b => exact ⟨kvs, hl, hs⟩
      | num n => exact ⟨kvs, hl, hs⟩
      | str s => exact ⟨kvs, hl, hs⟩
      | arr xs => exact ⟨kvs, hl, hs⟩

lemma active_finish (store : Store) (id0 s : String) (active : List String)
    (h : ActiveInv store active) (hnd : active.Nodup) :
    ActiveInv (TaskRegistry.finish store id0 s) (active.erase id0) := by
  intro id hid
  have hne : id ≠ id0 := (hnd.mem_erase_iff.1 hid).1
  have hmem : id ∈ active := (hnd.mem_erase_iff.1 hid).2
  obtain ⟨kvs, hl, hs⟩ := h id hmem
  have hfn : fname id ≠ fname id0 := fun hh => hne (fname_inj hh)
  unfold TaskRegistry.finish
  cases hl0 : lookupFile store (fname id0) with
  | none => exact ⟨kvs, hl, hs⟩
  | some c =>
    cases c with
    | corrupt => exact ⟨kvs, hl, hs⟩
    | json j =>
      cases j with
      | obj kvs0 =>
        exact ⟨kvs, by rw [lookupFile_setFile_ne _ _ _ hfn]; exact hl, hs⟩
      | null => exact ⟨kvs, hl, hs⟩
      | bool b => exact ⟨kvs, hl, hs⟩
      | num n => exact ⟨kvs, hl, hs⟩
      | str s2 => exact ⟨kvs, hl, hs⟩
      | arr xs => exact ⟨kvs, hl, hs⟩

lemma fresh_not_active (store : Store) (names active : List String)
    (id : String) (h : ActiveInv store active) (hn : NamesInv store names)
    (hfresh : fname id ∉ names) : id ∉ active := by
  intro hmem
  obtain ⟨kvs, hl, _⟩ := h id hmem
  exact hfresh (names_of_mem_map _ _ _ hn (lookup_some_name_mem _ _ _ hl))

lemma statusStep_main :
    ∀ (ops : List Op) (store : Store) (names active : List String)
      (createSeen : Bool),
    okOps names active createSeen ops = true →
    NamesInv store names →
    ActiveInv store active →
    active.Nodup →
    (createSeen = false → active = []) →
    ∀ (name : String) (i : Nat) (hi : i < ops.length),
      statusStepFor (ops.get ⟨i, hi⟩)
        (statusAt (applyOps store (ops.take i)) name)
        (statusAt (applyOps store (ops.take (i + 1))) name) := by
  intro ops
  induction ops with
  | nil =>
    intro _ _ _ _ _ _ _ _ _ name i hi
    exact absurd hi (by simp)
  | cons op rest ih =>
    intro store names active createSeen hok hn ha hnd hcs name i hi
    cases op with
    | drain =>
      have hok' : (!createSeen && okOps names active createSeen rest)
          = true := hok
      rw [Bool.and_eq_true] at hok'
      have hcsf : createSeen = false := by
        rcases hok'.1 with h
        simpa using h
      have hact0 : active = [] := hcs hcsf
      cases i with
      | zero =>
        show statusStepFor Op.drain (statusAt store name)
          (statusAt (applyOp store .drain) name)
        exact statusAt_drain store name
      | succ j =>
        have hj : j < rest.length := by simpa using hi
        exact ih (applyOp store .drain) names active createSeen hok'.2
          (names_drain store names hn)
          (by rw [hact0]; intro id hid; simp at hid)
          hnd hcs name j hj
    | updateActivity id0 v =>
      have hok' : okOps names active createSeen rest = true := hok
      cases i with
      | zero =>
        show statusStepFor (Op.updateActivity id0 v) (statusAt store name)
          (statusAt (applyOp store (.updateActivity id0 v)) name)
        exact statusAt_update store id0 v name
      | succ j =>
        have hj : j < rest.length := by simpa using hi
        exact ih (applyOp store (.updateActivity id0 v)) names active
          createSeen hok' (names_update store names id0 v hn)
          (active_update store id0 v active ha) hnd hcs name j hj
    | create id channel chat_id prompt t =>
      have hok' : (!(names.contains (fname id)) &&
          okOps (fname id :: names) (id :: active) true rest) = true := hok
      rw [Bool.and_eq_true] at hok'
      have hfresh : fname id ∉ names := by
        have h1 := hok'.1
        simp only [Bool.not_eq_true'] at h1
        intro hm
        have h2 : names.elem (fname id) = false := h1
        rw [List.elem_eq_true_of_mem hm] at h2
        exact absurd h2 (by simp)
      cases i with
      | zero =>
        show statusStepFor (Op.create id channel chat_id prompt t)
          (statusAt store name)
          (statusAt (applyOp store (.create id channel chat_id prompt t)) name)
        by_cases hname : name = fname id
        · right
          constructor
          · unfold statusAt
            rw [hname, lookupFile_eq_none store names (fname id) hn hfresh]
          · rw [hname]
            exact statusAt_create_self store id channel chat_id prompt t
        · exact .inl (statusAt_create_ne store id channel chat_id prompt t
            name hname)
      | succ j =>
        have hj : j < rest.length := by simpa using hi
        exact ih (applyOp store (.create id channel chat_id prompt t))
          (fname id :: names) (id :: active) true hok'.2
          (names_create store names id channel chat_id prompt t hn)
          (active_create store names active id channel chat_id prompt t
            hn ha hfresh)
          (List.nodup_cons.2
            ⟨fresh_not_active store names active id ha hn hfresh, hnd⟩)
          (by intro hh; exact absurd hh (by simp)) name j hj
    | finish id0 s =>
      have hok' : ((active.contains id0 &&
          (decide (s = "done") || decide (s = "error") ||
            decide (s = "cancelled"))) &&
          okOps names (active.erase id0) createSeen rest) = true := hok
      rw [Bool.and_eq_true, Bool.and_eq_true] at hok'
      have hmem : id0 ∈ active := List.mem_of_elem_eq_true hok'.1.1
      cases i with
      | zero =>
        show statusStepFor (Op.finish id0 s) (statusAt store name)
          (statusAt (applyOp store (.finish id0 s)) name)
        by_cases hname : name = fname id0
        · right
          subst hname
          obtain ⟨kvs, hl, hs⟩ := ha id0 hmem
          refine ⟨?_, ?_, ?_⟩
          · unfold statusAt
            rw [hl]
            exact hs
          · exact statusAt_finish_self store id0 s kvs hl
          · have h1 := hok'.1.2
            simp only [Bool.or_eq_true, decide_eq_true_eq] at h1
            tauto
        · exact .inl (statusAt_finish_ne store id0 s name hname)
      | succ j =>
        have hj : j < rest.length := by simpa using hi
        exact ih (applyOp store (.finish id0 s)) names (active.erase id0)
          createSeen hok'.2 (names_finish store names id0 s hn)
          (active_finish store id0 s active ha hnd) (hnd.erase id0)
          (fun hh => by rw [hcs hh]; rfl) name j hj

/-- C9: along every reachable operation sequence (recovery `drain` runs
before any create of the run, creates use fresh ids, `finish` is called
once per created task with a terminal status, as the Orchestrator does),
every record's persisted status steps only as the claim allows: it is
unchanged, or a new record appears as `running`, or `running` moves to
the terminal status written by `finish` (`done`/`error`/`cancelled`), or
`running` moves to `stale` at a recovery `drain` — never the reverse, and
never away from `stale`. -/
theorem C9_status_transitions (store : Store) (ops : List Op)
    (h : Reachable store ops) (name : String) (i : Nat)
    (hi : i < ops.length) :
    statusStepFor (ops.get ⟨i, hi⟩)
      (statusAt (applyOps store (ops.take i)) name)
      (statusAt (applyOps store (ops.take (i + 1))) name) :=
  statusStep_main ops store (store.map Prod.fst) [] false h
    (fun f hf => List.mem_map_of_mem Prod.fst hf)
    (fun id hid => absurd hid (by simp))
    List.nodup_nil
    (fun _ => rfl)
    name i hi

/-- C9 witness: the transition theorem applied to a concrete run — a
leftover `running` record, then recovery, create, an activity update and
the final finish — at the finish step of the created task's record. -/
theorem C9_witness :
    Reachable [fileA]
      [.drain, .create "t1" "discord" "c9" "do a thing" 7,
       .updateActivity "t1" (.str "label"), .finish "t1" "done"] ∧
    (3 < ([.drain, .create "t1" "discord" "c9" "do a thing" 7,
       .updateActivity "t1" (.str "label"),
       .finish "t1" "done"] : List Op).length) ∧
    statusStepFor (([.drain, .create "t1" "discord" "c9" "do a thing" 7,
        .updateActivity "t1" (.str "label"),
        .finish "t1" "done"] : List Op).get ⟨3, by decide⟩)
      (statusAt (applyOps [fileA]
        (([.drain, .create "t1" "discord" "c9" "do a thing" 7,
          .updateActivity "t1" (.str "label"),
          .finish "t1" "done"] : List Op).take 3)) (fname "t1"))
      (statusAt (applyOps [fileA]
        (([.drain, .create "t1" "discord" "c9" "do a thing" 7,
          .updateActivity "t1" (.str "label"),
          .finish "t1" "done"] : List Op).take 4)) (fname "t1")) :=
  ⟨by unfold Reachable; decide, by decide,
    C9_status_transitions [fileA]
      [.drain, .create "t1" "discord" "c9" "do a thing" 7,
       .updateActivity "t1" (.str "label"), .finish "t1" "done"]
      (by unfold Reachable; decide) (fname "t1") 3 (by decide)⟩

end Nanobot
